import Mathlib

/-!
Verification of the CanvasCollab collaboration engine.

This file gives a shallow embedding of the server-side event store
(src/server/src/services/eventStore.js), the websocket fan-out layer
(src/server/src/services/websocketManager.js) and the client-side
conflict resolver (the conflictResolution utility module), and proves
the specification claims about them.

Modelling conventions:
* JSON values are modelled by the inductive type JVal; JS objects are
  association lists from field names to values (insertion order kept,
  keys unique in practice but duplicates tolerated with first-match
  lookup, as in parsed JSON).
* Postgres jsonb columns keep their object keys in sorted, deduplicated
  form; the map primitives pmerge and psetSorted reproduce that
  normalisation.
* Numbers are modelled as integers (timestamps, versions, coordinates
  and z-indices in the repository are integral in every scenario the
  spec states); floating point is outside the model.
* The model covers a single canvas: both the event log and the rooms of
  the server are keyed by canvasId and different canvases never
  interact, so every per-canvas claim is stated over one canvas.
* Database writes that would fail (inserting a shape row with a NULL
  primary key) are outside the model and are excluded by the
  well-formedness predicates used as hypotheses.
-/

namespace CanvasCollab

/-- JSON-like values: the payloads, property maps and wire messages of
the repository are JSON, which this type embeds (numbers as integers). -/
inductive JVal where
  | jnull
  | jbool (b : Bool)
  | jnum (n : Int)
  | jstr (s : String)
  | jobj (fields : List (String × JVal))

/-- Property maps: JS objects / jsonb objects as association lists. -/
abbrev Pmap := List (String × JVal)

/-- JavaScript truthiness of a value (null, false, 0 and the empty
string are falsy; objects are always truthy). -/
def truthy : JVal → Bool
  | .jnull => false
  | .jbool b => b
  | .jnum n => decide (n ≠ 0)
  | .jstr s => decide (s ≠ "")
  | .jobj _ => true

/-- Truthiness of a possibly-absent value (undefined is falsy). -/
def truthyO : Option JVal → Bool
  | some v => truthy v
  | none => false

/-- First-match lookup in an association list, as JS property access. -/
def plookup : Pmap → String → Option JVal
  | [], _ => none
  | (k, v) :: rest, key => if k = key then some v else plookup rest key

/-- Keys of a property map. -/
def keysOf (m : Pmap) : List String := m.map Prod.fst

/-- JS object assignment: update the first occurrence of the key in
place, or append the binding at the end. -/
def jset : Pmap → String → JVal → Pmap
  | [], key, v => [(key, v)]
  | (k, w) :: rest, key, v =>
      if k = key then (key, v) :: rest else (k, w) :: jset rest key v

/-- Jsonb object assignment: keys are kept sorted and deduplicated, as
postgres normalises jsonb objects. -/
def psetSorted : Pmap → String → JVal → Pmap
  | [], key, v => [(key, v)]
  | (k, w) :: rest, key, v =>
      if key = k then (key, v) :: rest
      else if key < k then (key, v) :: (k, w) :: rest
      else (k, w) :: psetSorted rest key v

/-- Jsonb shallow object merge a || b: keys of b win, result normalised. -/
def pmerge (a b : Pmap) : Pmap :=
  b.foldl (fun m kv => psetSorted m kv.1 kv.2) a

/-- Jsonb normalisation of an object (sorted keys, last duplicate wins),
as applied when a JS object is stored into a jsonb column. -/
def pnorm (ps : Pmap) : Pmap := pmerge [] ps

/-- Field access on a JSON value: undefined on non-objects. -/
def jget : JVal → String → Option JVal
  | .jobj fields, key => plookup fields key
  | _, _ => none

/-- The object fields of a value; non-objects contribute no fields
(spreading or enumerating a non-object yields nothing in the cases the
repository exercises). -/
def asObj : JVal → Pmap
  | .jobj fields => fields
  | _ => []

/-- Numeric reading of a value (non-numbers read as 0). -/
def asInt : JVal → Int
  | .jnum n => n
  | _ => 0

/-- String reading of a value (non-strings read as the empty string). -/
def asStr : JVal → String
  | .jstr s => s
  | _ => ""

/-- The JS expression a || b on a possibly-absent first operand. -/
def jsOr (a : Option JVal) (b : JVal) : JVal :=
  match a with
  | some v => if truthy v then v else b
  | none => b

/-- The JS expression a || b || c (three-way fallback chain). -/
def jsOr3 (a b : Option JVal) (c : JVal) : JVal :=
  match a with
  | some v => if truthy v then v else jsOr b c
  | none => jsOr b c

/-- Numeric reading of the JS expression v || 0. -/
def asIntD (o : Option JVal) : Int := asInt (jsOr o (.jnum 0))

/-- Deduplication of a key list keeping first occurrences, as iterating
a JS Set built from the list. -/
def dedupAux (seen : List String) : List String → List String
  | [] => []
  | k :: rest =>
      if k ∈ seen then dedupAux seen rest else k :: dedupAux (k :: seen) rest

/-- Iteration order of new Set([...as, ...bs]). -/
def dedupKeys (ks : List String) : List String := dedupAux [] ks

/-! ### Vector clocks (client utility module, class VectorClock) -/

/-- A vector clock: sparse map from node id to counter, absent keys read
as 0. -/
abbrev Clock := List (String × Int)

/-- VectorClock.get: current value for a node, defaulting to 0. -/
def cget : Clock → String → Int
  | [], _ => 0
  | (k, v) :: rest, key => if k = key then v else cget rest key

/-- Assignment into a clock object (update first occurrence or append). -/
def cset : Clock → String → Int → Clock
  | [], key, v => [(key, v)]
  | (k, w) :: rest, key, v =>
      if k = key then (key, v) :: rest else (k, w) :: cset rest key v

/-- Keys of a clock. -/
def keysC (c : Clock) : List String := c.map Prod.fst

/-- VectorClock.increment for a node id. -/
def cincrement (c : Clock) (nodeId : String) : Clock :=
  cset c nodeId (cget c nodeId + 1)

/-- VectorClock.merge: pointwise maximum, iterating the deduplicated
union of both key sets and updating this clock in place. -/
def vcMerge (a b : Clock) : Clock :=
  (dedupKeys (keysC a ++ keysC b)).foldl
    (fun c n => cset c n (max (cget c n) (cget b n))) a

/-- VectorClock.happenedBefore: no component strictly greater, and at
least one component strictly smaller, over the union of the key sets. -/
def vcHappenedBefore (a b : Clock) : Bool :=
  let ks := dedupKeys (keysC a ++ keysC b)
  ks.all (fun k => decide (cget a k ≤ cget b k)) &&
    ks.any (fun k => decide (cget a k < cget b k))

/-- VectorClock.isConcurrent: neither clock happened before the other. -/
def vcIsConcurrent (a b : Clock) : Bool :=
  !vcHappenedBefore a b && !vcHappenedBefore b a

/-! ### Client-side property-level merge (mergeShapeProperties) -/

/-- One step of the mergeShapeProperties loop: decide the merged value
for one key from the local and remote values and timestamps. -/
def mergeStep (localProps remoteProps : Option Pmap) (lts rts : Pmap)
    (merged : Pmap) (k : String) : Pmap :=
  let lv := localProps.bind (fun m => plookup m k)
  let rv := remoteProps.bind (fun m => plookup m k)
  let lt := asIntD (plookup lts k)
  let rt := asIntD (plookup rts k)
  match lv, rv with
  | some l, none => jset merged k l
  | none, some r => jset merged k r
  | some l, some r => if lt > rt then jset merged k l else jset merged k r
  | none, none => merged

/-- mergeShapeProperties from the client utility module: start from a
copy of the base properties and, for every key of either side, keep the
side with the newer per-property timestamp, the remote side winning
ties. -/
def mergeShapeProperties (baseProps : Pmap) (localProps remoteProps : Option Pmap)
    (localTimestamps remoteTimestamps : Pmap) : Pmap :=
  let allKeys := dedupKeys
    (keysOf (localProps.getD []) ++ keysOf (remoteProps.getD []))
  allKeys.foldl (mergeStep localProps remoteProps localTimestamps remoteTimestamps)
    baseProps

/-! ### Client-side conflict resolver (class ConflictResolver) -/

/-- The action decided by ConflictResolver.resolveConflict. -/
inductive Action where
  | KEEP_LOCAL
  | APPLY_REMOTE
  | MERGE
deriving DecidableEq

/-- State of a ConflictResolver instance: the user id, the vector clock
and the per-shape property timestamp maps. -/
structure Resolver where
  userId : String
  vectorClock : Clock
  propertyTimestamps : List (String × Pmap)

/-- A remote shape event as seen by the resolver: its vector clock, the
properties of its payload and its property-timestamp map (each possibly
absent). -/
structure RemoteEvent where
  vectorClock : Option Clock
  payloadProperties : Option Pmap
  propertyTimestamps : Option Pmap

/-- Result of resolveConflict: the action and the shape properties to
adopt (absent when the remote event carried no properties). -/
structure ResolveResult where
  action : Action
  shape : Option Pmap

/-- First-match lookup of a shape's timestamp map in the resolver state. -/
def tsLookup : List (String × Pmap) → String → Option Pmap
  | [], _ => none
  | (k, v) :: rest, key => if k = key then some v else tsLookup rest key

/-- ConflictResolver.resolveConflict: keep local when the remote clock
happened before the local one, apply remote when the local clock
happened before the remote one, and otherwise merge at property level
and absorb the remote clock into the local one by pointwise maximum. -/
def resolveConflict (r : Resolver) (shapeId : String) (localShape : Pmap)
    (remote : RemoteEvent) : ResolveResult × Resolver :=
  let remoteClock := remote.vectorClock.getD []
  if vcHappenedBefore remoteClock r.vectorClock then
    ({ action := .KEEP_LOCAL, shape := some localShape }, r)
  else if vcHappenedBefore r.vectorClock remoteClock then
    ({ action := .APPLY_REMOTE, shape := remote.payloadProperties }, r)
  else
    let localTimestamps := (tsLookup r.propertyTimestamps shapeId).getD []
    let remoteTimestamps := remote.propertyTimestamps.getD []
    let merged := mergeShapeProperties localShape (some localShape)
      remote.payloadProperties localTimestamps remoteTimestamps
    ({ action := .MERGE, shape := some merged },
     { r with vectorClock := vcMerge r.vectorClock remoteClock })

/-- Application of a partial property edit to a shape object, as the JS
spread that assigns each edited key. -/
def applyProps (base : Pmap) (edit : Pmap) : Pmap :=
  edit.foldl (fun m kv => jset m kv.1 kv.2) base

/-- The happens-before relation as the spec states it (section 4.B):
every component is at most the other's and some component is strictly
smaller, absent keys reading as 0. -/
def specHappensBefore (a b : Clock) : Prop :=
  (∀ k, cget a k ≤ cget b k) ∧ (∃ k, cget a k < cget b k)

/-- The per-key merge value as the spec states it (section 4.C): for a
key touched on both sides the greater property-timestamp wins with the
remote side winning ties, a key touched on one side takes that side's
value, and a key untouched on both sides retains the base value. -/
def specMergeValue (base : Pmap) (localProps remoteProps : Option Pmap)
    (lts rts : Pmap) (k : String) : Option JVal :=
  match localProps.bind (fun m => plookup m k),
        remoteProps.bind (fun m => plookup m k) with
  | some l, some r =>
      if asIntD (plookup lts k) > asIntD (plookup rts k) then some l else some r
  | some l, none => some l
  | none, some r => some r
  | none, none => plookup base k

/-- The value chosen by one iteration of the mergeShapeProperties loop
for a key, independent of the accumulator: the side with the newer
timestamp when both sides carry the key, the carrying side when only
one does, nothing when neither does. -/
def mergeChoice (localProps remoteProps : Option Pmap) (lts rts : Pmap)
    (k : String) : Option JVal :=
  match localProps.bind (fun m => plookup m k),
        remoteProps.bind (fun m => plookup m k) with
  | some l, none => some l
  | none, some r => some r
  | some l, some r =>
      if asIntD (plookup lts k) > asIntD (plookup rts k) then some l else some r
  | none, none => none

/-! ### Server-side event store (eventStore.js) -/

/-- The closed set of event types that are stored in the database. -/
def STORED_EVENT_TYPES : List String :=
  ["USER_CONNECTED", "USER_DISCONNECTED", "POINTER_DOWN", "DRAG_START",
   "DRAG_END", "SHAPE_CREATED", "SHAPE_EDITED", "SHAPE_MOVED", "SHAPE_DELETED"]

/-- shouldStoreEvent: whether an event type is persisted. -/
def shouldStoreEvent (eventType : String) : Bool :=
  STORED_EVENT_TYPES.contains eventType

/-- mergeProperties (server side): start from the server properties and
let a client property win exactly when its timestamp is strictly newer
than the server's recorded timestamp for that key. -/
def mergeProperties (serverProps clientProps : Pmap)
    (serverTimestamps clientTimestamps : Pmap) : Pmap :=
  clientProps.foldl (fun merged kv =>
    let serverTime := asIntD (plookup serverTimestamps kv.1)
    let clientTime := asIntD (plookup clientTimestamps kv.1)
    if clientTime > serverTime then jset merged kv.1 kv.2 else merged)
    serverProps

/-- A row of the shapes table. The deleted flag models a non-NULL
deleted_at tombstone; updated_at is the wall-clock time of the last
write to the row. -/
structure ShapeRow where
  typ : String
  properties : Pmap
  z_index : Int
  deleted : Bool
  updated_at : Int

/-- The shapes table of one canvas, keyed by shape id. -/
abbrev Shapes := List (String × ShapeRow)

/-- Row lookup by primary key. -/
def getShape : Shapes → String → Option ShapeRow
  | [], _ => none
  | (k, v) :: rest, key => if k = key then some v else getShape rest key

/-- INSERT ... ON CONFLICT upsert: replace the row in place or append. -/
def setShape : Shapes → String → ShapeRow → Shapes
  | [], key, row => [(key, row)]
  | (k, v) :: rest, key, row =>
      if k = key then (key, row) :: rest else (k, v) :: setShape rest key row

/-- UPDATE ... WHERE id = sid: rewrite the matching row, no-op if absent. -/
def updateShape (shapes : Shapes) (sid : String) (f : ShapeRow → ShapeRow) : Shapes :=
  shapes.map (fun kv => if kv.1 = sid then (kv.1, f kv.2) else kv)

/-- UPDATE keyed by an optional shape id (WHERE id = NULL matches no row). -/
def updateShapeO (shapes : Shapes) (shapeId : Option String)
    (f : ShapeRow → ShapeRow) : Shapes :=
  match shapeId with
  | none => shapes
  | some sid => updateShape shapes sid f

/-- A conflict detected against the current shape row. -/
structure Conflict where
  shapeId : String
  serverProperties : Pmap
  serverTimestamp : Int

/-- The client's declared base timestamp read from a payload:
payload.timestamp, else payload.propertyTimestamps?.timestamp, else 0. -/
def clientBaseTimestamp (payload : JVal) : Int :=
  asInt (jsOr3 (jget payload "timestamp")
    ((jget payload "propertyTimestamps").bind (fun v => jget v "timestamp"))
    (.jnum 0))

/-- detectConflict: a conflict is possible when the payload carries a
vector clock, the shape row exists, and the row was last updated after
the client's declared base timestamp minus one second. -/
def detectConflict (shapes : Shapes) (shapeId : Option String)
    (payload : JVal) : Option Conflict :=
  match shapeId with
  | none => none
  | some sid =>
    match getShape shapes sid with
    | none => none
    | some row =>
        if truthyO (jget payload "vectorClock") &&
            decide (row.updated_at > clientBaseTimestamp payload - 1000) then
          some ⟨sid, row.properties, row.updated_at⟩
        else none

/-- resolveConflict (server side): property-level merge of the client
payload's properties (falling back to its position, then to the whole
payload) against the server row's properties; the server tracks no
per-property timestamps, so the server timestamp map is empty. The
result is the client payload with its properties replaced by the merge
and a conflictResolved marker. -/
def resolveConflictServer (conflict : Conflict) (clientPayload : JVal) : JVal :=
  let clientProperties := asObj (jsOr3 (jget clientPayload "properties")
    (jget clientPayload "position") clientPayload)
  let serverTimestamps : Pmap := []
  let clientTimestamps := asObj (jsOr (jget clientPayload "propertyTimestamps") (.jobj []))
  let merged := mergeProperties conflict.serverProperties clientProperties
    serverTimestamps clientTimestamps
  .jobj (jset (jset (asObj clientPayload) "properties" (.jobj merged))
    "conflictResolved" (.jbool true))

/-- applyEvent: the projection of one stored event onto the shapes
table, one case per event type as in the source switch. -/
def applyEvent (shapes : Shapes) (now : Int) (eventType : String)
    (shapeId : Option String) (payload : JVal) : Shapes :=
  match eventType with
  | "SHAPE_CREATED" =>
      let properties := asObj (jsOr (jget payload "properties") payload)
      let shapeType := asStr (jsOr (jget payload "type")
        (jsOr (plookup properties "type") .jnull))
      let zIndex := asInt (jsOr3 (jget payload "zIndex")
        (plookup properties "zIndex") (.jnum 0))
      match shapeId with
      | none => shapes
      | some sid =>
        match getShape shapes sid with
        | none => shapes ++
            [(sid, ⟨shapeType, pnorm properties, zIndex, false, now⟩)]
        | some old => setShape shapes sid
            { old with properties := pnorm properties, z_index := zIndex,
                       deleted := false, updated_at := now }
  | "SHAPE_EDITED" =>
      let editProps := asObj (jsOr (jget payload "properties") payload)
      updateShapeO shapes shapeId (fun row =>
        { row with properties := pmerge row.properties editProps, updated_at := now })
  | "SHAPE_MOVED" =>
      let position := asObj (jsOr (jget payload "position") payload)
      updateShapeO shapes shapeId (fun row =>
        { row with
            properties := psetSorted
              (psetSorted row.properties "x" ((plookup position "x").getD .jnull))
              "y" ((plookup position "y").getD .jnull),
            updated_at := now })
  | "DRAG_END" =>
      if truthyO (jget payload "endPosition") then
        let ep := asObj ((jget payload "endPosition").getD .jnull)
        updateShapeO shapes shapeId (fun row =>
          { row with
              properties := psetSorted
                (psetSorted row.properties "x" ((plookup ep "x").getD .jnull))
                "y" ((plookup ep "y").getD .jnull),
              updated_at := now })
      else shapes
  | "SHAPE_DELETED" =>
      updateShapeO shapes shapeId (fun row =>
        { row with deleted := true, updated_at := now })
  | "POINTER_DOWN" => shapes
  | "DRAG_START" => shapes
  | "USER_CONNECTED" => shapes
  | "USER_DISCONNECTED" => shapes
  | "SHAPE_UPDATED" =>
      let editProps := asObj ((jget payload "properties").getD .jnull)
      updateShapeO shapes shapeId (fun row =>
        { row with properties := pmerge row.properties editProps, updated_at := now })
  | "SHAPE_RESIZED" =>
      updateShapeO shapes shapeId (fun row =>
        { row with properties := pmerge row.properties (asObj payload),
                   updated_at := now })
  | "SHAPE_ROTATED" =>
      updateShapeO shapes shapeId (fun row =>
        { row with
            properties := psetSorted row.properties "rotation"
              ((jget payload "rotation").getD .jnull),
            updated_at := now })
  | "SHAPE_RESTORED" =>
      updateShapeO shapes shapeId (fun row =>
        { row with deleted := false, updated_at := now })
  | "Z_INDEX_CHANGED" =>
      updateShapeO shapes shapeId (fun row =>
        { row with z_index := asInt ((jget payload "zIndex").getD (.jnum 0)),
                   updated_at := now })
  | _ => shapes

/-- A row of the events table (for one canvas). Event ids stand in for
the generated UUIDs; they are allocated from a per-state counter. -/
structure StoredEvent where
  eventId : Nat
  shape_id : Option String
  user_id : String
  event_type : String
  payload : JVal
  version : Nat

/-- The persistent state of one canvas: its event log, its shapes table
and the event-id allocator. -/
structure StoreState where
  events : List StoredEvent
  shapes : Shapes
  nextId : Nat

/-- A fresh canvas: empty log, empty shapes table. -/
def initialStore : StoreState := ⟨[], [], 0⟩

/-- getCurrentVersion: COALESCE(MAX(version), 0) over the canvas log. -/
def maxVersion (st : StoreState) : Nat :=
  st.events.foldl (fun m e => max m e.version) 0

/-- The committed part shared by storeEvent and the storeBatchEvents
loop: detect a conflict, resolve the payload, allocate the next version,
append the event and apply it to the shapes table. -/
def commitEvent (st : StoreState) (now : Int) (userId : String)
    (eventType : String) (shapeId : Option String) (payload : JVal) :
    (StoredEvent × Option Conflict) × StoreState :=
  let conflict := detectConflict st.shapes shapeId payload
  let resolvedPayload :=
    match conflict with
    | some c => resolveConflictServer c payload
    | none => payload
  let ev : StoredEvent :=
    ⟨st.nextId, shapeId, userId, eventType, resolvedPayload, maxVersion st + 1⟩
  ((ev, conflict),
   { events := st.events ++ [ev],
     shapes := applyEvent st.shapes now eventType shapeId resolvedPayload,
     nextId := st.nextId + 1 })

/-- The value returned by storeEvent. hadConflict is absent (undefined)
on the non-stored short-circuit path. -/
structure StoreResult where
  eventId : Option Nat
  version : Nat
  userId : String
  eventType : String
  shapeId : Option String
  payload : JVal
  stored : Bool
  hadConflict : Option Bool

/-- storeEvent: non-storable kinds short-circuit with the current
version and stored = false; storable kinds run conflict detection and
resolution, get version max + 1, are appended to the log and applied to
the shapes table. -/
def storeEvent (st : StoreState) (now : Int) (userId : String)
    (eventType : String) (shapeId : Option String) (payload : JVal) :
    StoreResult × StoreState :=
  if shouldStoreEvent eventType then
    let ((ev, conflict), st') := commitEvent st now userId eventType shapeId payload
    ({ eventId := some ev.eventId, version := ev.version, userId := userId,
       eventType := eventType, shapeId := shapeId, payload := ev.payload,
       stored := true, hadConflict := some conflict.isSome }, st')
  else
    ({ eventId := none, version := maxVersion st, userId := userId,
       eventType := eventType, shapeId := shapeId, payload := payload,
       stored := false, hadConflict := none }, st)

/-- One event submitted to storeBatchEvents. -/
structure BatchItem where
  userId : String
  eventType : String
  shapeId : Option String
  payload : JVal

/-- One entry of the storedEvents list returned by storeBatchEvents. -/
structure BatchStored where
  eventId : Nat
  version : Nat
  userId : String
  eventType : String
  shapeId : Option String
  payload : JVal
  hadConflict : Bool

/-- One entry of the conflicts list returned by storeBatchEvents. -/
structure BatchConflict where
  shapeId : Option String
  localVersion : JVal
  serverVersion : Pmap
  serverTimestamps : Pmap

/-- One iteration of the storeBatchEvents loop: skip non-storable kinds,
otherwise commit the event and accumulate any conflict. -/
def storeBatchStep (now : Int)
    (acc : (List BatchStored × List BatchConflict) × StoreState)
    (e : BatchItem) : (List BatchStored × List BatchConflict) × StoreState :=
  let st := acc.2
  if shouldStoreEvent e.eventType then
    let ((ev, conflict), st') := commitEvent st now e.userId e.eventType e.shapeId e.payload
    let conflicts' :=
      match conflict with
      | some c => acc.1.2 ++
          [⟨e.shapeId, jsOr (jget e.payload "properties") e.payload,
            c.serverProperties, []⟩]
      | none => acc.1.2
    ((acc.1.1 ++
        [⟨ev.eventId, ev.version, e.userId, e.eventType, e.shapeId, ev.payload,
          conflict.isSome⟩], conflicts'), st')
  else acc

/-- storeBatchEvents: one transaction applying each submitted event in
order through the same conflict detection, versioning and projection as
storeEvent. -/
def storeBatchEvents (st : StoreState) (now : Int) (events : List BatchItem) :
    (List BatchStored × List BatchConflict) × StoreState :=
  events.foldl (storeBatchStep now) (([], []), st)

/-- getEventsSinceVersion: events with version strictly greater than the
bound. The log is maintained in ascending version order (proved below),
so the SQL ORDER BY version ASC is the order of the filtered log. -/
def eventsSince (st : StoreState) (sinceVersion : Nat) : List StoredEvent :=
  st.events.filter (fun e => decide (sinceVersion < e.version))

/-- Stable insertion of a keyed row into a list sorted by ascending
z-index (rows with equal z-index keep their relative order). -/
def insertByZ {α : Type} (z : α → Int) (x : String × α) :
    List (String × α) → List (String × α)
  | [] => [x]
  | y :: ys => if z y.2 ≤ z x.2 then y :: insertByZ z x ys else x :: y :: ys

/-- Stable sort of keyed rows by ascending z-index (ORDER BY z_index ASC). -/
def sortByZ {α : Type} (z : α → Int) : List (String × α) → List (String × α)
  | [] => []
  | x :: xs => insertByZ z x (sortByZ z xs)

/-- The wire form of one shape in CANVAS_STATE: id and type, the
properties inlined at top level, then zIndex. -/
def presentShapeObj (sid : String) (typ : String) (properties : Pmap)
    (zIndex : Int) : JVal :=
  .jobj (jset (applyProps [("id", .jstr sid), ("type", .jstr typ)] properties)
    "zIndex" (.jnum zIndex))

/-- The value returned by getCanvasState. -/
structure CanvasState where
  shapes : List JVal
  version : Nat

/-- getCanvasState: live (non-deleted) shapes ordered by ascending
z-index with inlined properties, plus the current maximum version. -/
def getCanvasState (st : StoreState) : CanvasState :=
  { shapes := (sortByZ ShapeRow.z_index
      (st.shapes.filter (fun kv => !kv.2.deleted))).map
      (fun kv => presentShapeObj kv.1 kv.2.typ kv.2.properties kv.2.z_index),
    version := maxVersion st }

/-! ### Specification-side projection (spec section 4.D.1)

The following definitions are written from the words of the
specification, not from the source; the refinement claim compares the
fold of these rules over the stored log with the materialised shapes
table. A spec-side row carries no updated_at: the projection table of
section 4.D.1 does not mention update times. -/

/-- A projected shape row as described by the spec data model
(type, properties, zIndex and the deletedAt tombstone flag). -/
structure SpecRow where
  typ : String
  properties : Pmap
  z_index : Int
  deleted : Bool

/-- The spec-side projection state. -/
abbrev SpecShapes := List (String × SpecRow)

/-- Lookup of a spec-side row. -/
def specGet : SpecShapes → String → Option SpecRow
  | [], _ => none
  | (k, v) :: rest, key => if k = key then some v else specGet rest key

/-- Upsert of a spec-side row (replace in place or append). -/
def specSet : SpecShapes → String → SpecRow → SpecShapes
  | [], key, row => [(key, row)]
  | (k, v) :: rest, key, row =>
      if k = key then (key, row) :: rest else (k, v) :: specSet rest key row

/-- Update of a spec-side row, no-op when the shape is absent. -/
def specUpdate (s : SpecShapes) (shapeId : Option String)
    (f : SpecRow → SpecRow) : SpecShapes :=
  match shapeId with
  | none => s
  | some sid => s.map (fun kv => if kv.1 = sid then (kv.1, f kv.2) else kv)

/-- The row written by the SHAPE_CREATED rule of section 4.D.1: set
type, properties and zIndex from the payload fields of section 4.A and
clear the tombstone (properties normalised as any jsonb column is). -/
def specCreatedRow (payload : JVal) : SpecRow :=
  { typ := asStr ((jget payload "type").getD .jnull),
    properties := pnorm (asObj ((jget payload "properties").getD .jnull)),
    z_index := asInt ((jget payload "zIndex").getD (.jnum 0)),
    deleted := false }

/-- The projection rules of section 4.D.1, read literally from the
table: SHAPE_CREATED upserts type, properties and zIndex and clears the
tombstone; SHAPE_EDITED shallow-merges payload.properties; SHAPE_MOVED
patches x and y from payload.position; DRAG_END patches x and y when
endPosition is present; SHAPE_DELETED sets the tombstone; the audit
kinds have no effect. Legacy kinds never appear in the stored log, so
they (and unknown kinds) are no-ops here. -/
def specProjectOrig (s : SpecShapes) (e : StoredEvent) : SpecShapes :=
  match e.event_type with
  | "SHAPE_CREATED" =>
      match e.shape_id with
      | none => s
      | some sid => specSet s sid (specCreatedRow e.payload)
  | "SHAPE_EDITED" =>
      specUpdate s e.shape_id (fun row =>
        { row with
            properties := pmerge row.properties
              (asObj ((jget e.payload "properties").getD .jnull)) })
  | "SHAPE_MOVED" =>
      let pos := asObj ((jget e.payload "position").getD .jnull)
      specUpdate s e.shape_id (fun row =>
        { row with
            properties := psetSorted
              (psetSorted row.properties "x" ((plookup pos "x").getD .jnull))
              "y" ((plookup pos "y").getD .jnull) })
  | "DRAG_END" =>
      if (jget e.payload "endPosition").isSome then
        let ep := asObj ((jget e.payload "endPosition").getD .jnull)
        specUpdate s e.shape_id (fun row =>
          { row with
              properties := psetSorted
                (psetSorted row.properties "x" ((plookup ep "x").getD .jnull))
                "y" ((plookup ep "y").getD .jnull) })
      else s
  | "SHAPE_DELETED" =>
      specUpdate s e.shape_id (fun row => { row with deleted := true })
  | _ => s

/-- The projection rules of section 4.D.1 amended in exactly one point:
a SHAPE_CREATED for an already-existing shape row updates properties and
zIndex and clears the tombstone but leaves the row's type unchanged, as
the source upsert does. -/
def specProjectFixed (s : SpecShapes) (e : StoredEvent) : SpecShapes :=
  match e.event_type with
  | "SHAPE_CREATED" =>
      match e.shape_id with
      | none => s
      | some sid =>
        match specGet s sid with
        | none => specSet s sid (specCreatedRow e.payload)
        | some old => specSet s sid { specCreatedRow e.payload with typ := old.typ }
  | _ => specProjectOrig s e

/-- The canvas state described by the spec: the left-fold of the given
projection rules over the stored log, presented as the live shapes in
ascending z-index order with inlined properties, plus the maximum
version of the log. -/
def specCanvasState (rules : SpecShapes → StoredEvent → SpecShapes)
    (events : List StoredEvent) : CanvasState :=
  let s := events.foldl rules []
  { shapes := (sortByZ SpecRow.z_index (s.filter (fun kv => !kv.2.deleted))).map
      (fun kv => presentShapeObj kv.1 kv.2.typ kv.2.properties kv.2.z_index),
    version := events.foldl (fun m e => max m e.version) 0 }

/-- The spec-level view of a shapes-table row: the same data without the
updated_at column, which the projection rules of section 4.D.1 do not
mention. -/
def specOfRow (row : ShapeRow) : SpecRow :=
  ⟨row.typ, row.properties, row.z_index, row.deleted⟩

/-- The spec-level view of the whole shapes table. -/
def eraseShapes (shapes : Shapes) : SpecShapes :=
  shapes.map (fun kv => (kv.1, specOfRow kv.2))

/-! ### Traces of store operations -/

/-- One call into the event store of a canvas: a single storeEvent or a
storeBatchEvents, each carrying the wall-clock time of the call. -/
inductive Call where
  | store (now : Int) (userId : String) (eventType : String)
      (shapeId : Option String) (payload : JVal)
  | batch (now : Int) (events : List BatchItem)

/-- Execute one call against a store state. -/
def runCall (st : StoreState) : Call → StoreState
  | .store now u et sid p => (storeEvent st now u et sid p).2
  | .batch now evs => (storeBatchEvents st now evs).2

/-- Execute a sequence of calls against a store state. -/
def runTrace (st : StoreState) (tr : List Call) : StoreState :=
  tr.foldl runCall st

/-! ### Well-formed payloads (the canonical shapes of spec section 4.A) -/

/-- Canonical payload check for one submitted event: SHAPE_CREATED
carries a shape id, a nested properties object (with no stray zIndex
inside it), a non-empty type string and an optional numeric zIndex;
SHAPE_EDITED carries a nested properties object (with no stray zIndex);
SHAPE_MOVED carries a position object with x and y; DRAG_END carries
either no endPosition or an object with x and y; all other kinds are
unconstrained. -/
def wfPayload (eventType : String) (shapeId : Option String) (payload : JVal) : Bool :=
  match eventType with
  | "SHAPE_CREATED" =>
      shapeId.isSome &&
      (match jget payload "properties" with
       | some (.jobj ps) => (plookup ps "zIndex").isNone
       | _ => false) &&
      (match jget payload "type" with
       | some (.jstr t) => decide (t ≠ "")
       | _ => false) &&
      (match jget payload "zIndex" with
       | none => true
       | some (.jnum _) => true
       | some _ => false)
  | "SHAPE_EDITED" =>
      (match jget payload "properties" with
       | some (.jobj ps) => (plookup ps "zIndex").isNone
       | _ => false)
  | "SHAPE_MOVED" =>
      (match jget payload "position" with
       | some (.jobj pos) => (plookup pos "x").isSome && (plookup pos "y").isSome
       | _ => false)
  | "DRAG_END" =>
      (match jget payload "endPosition" with
       | none => true
       | some (.jobj ep) => (plookup ep "x").isSome && (plookup ep "y").isSome
       | some _ => false)
  | _ => true

/-- Canonical payload check for a batch item. -/
def wfItem (e : BatchItem) : Bool := wfPayload e.eventType e.shapeId e.payload

/-- Canonical payload check for a call. -/
def wfCall : Call → Bool
  | .store _ _ et sid p => wfPayload et sid p
  | .batch _ evs => evs.all wfItem

/-- Canonical payload check for a whole trace. -/
def wfTrace (tr : List Call) : Bool := tr.all wfCall

/-! ### WebSocket layer (websocketManager.js), one canvas -/

/-- Per-connection session info (connection ids stand in for sockets;
joined models connInfo.canvasId being the canvas at hand). -/
structure ConnInfo where
  userId : String
  username : String
  joined : Bool

/-- The manager state for one canvas: the room (the set of attached
connections, in insertion order), the session map and the canvas's
store. All transports are taken as writable. -/
structure WSState where
  room : List Nat
  conns : List (Nat × ConnInfo)
  store : StoreState

/-- Session lookup. -/
def connLookup : List (Nat × ConnInfo) → Nat → Option ConnInfo
  | [], _ => none
  | (k, v) :: rest, key => if k = key then some v else connLookup rest key

/-- One entry of the storedEvents list of a BATCH_SYNC_RESULT. -/
structure ResultEntry where
  localEventId : Option String
  eventId : Nat
  version : Nat
  hadConflict : Bool

/-- The outbound messages the modelled handlers can send. -/
inductive Msg where
  | errorMsg (error : String)
  | eventAck (localEventId : Option String) (eventId : Option Nat)
      (version : Nat) (stored : Bool) (hadConflict : Option Bool)
  | shapeEventMsg (eventId : Option Nat) (eventType : String)
      (shapeId : Option String) (payload : JVal) (userId username : String)
      (version : Nat) (stored : Option Bool)
      (vectorClock propertyTimestamps : Option JVal)
  | batchSyncResult (success : Bool) (storedEvents : List ResultEntry)
      (missedEvents : List StoredEvent) (currentState : CanvasState)
      (conflicts : List BatchConflict)

/-- handleShapeEvent: reject when not joined; otherwise store the event,
ack the sender with EVENT_ACK, and broadcast a SHAPE_EVENT carrying the
resolved payload to every room member except the sender. -/
def handleShapeEvent (st : WSState) (now : Int) (sender : Nat)
    (localEventId : Option String) (eventType : String)
    (shapeId : Option String) (payload : JVal) : List (Nat × Msg) × WSState :=
  match connLookup st.conns sender with
  | none => ([], st)
  | some ci =>
    if ci.joined then
      let (res, store') := storeEvent st.store now ci.userId eventType shapeId payload
      let ack := Msg.eventAck localEventId res.eventId res.version res.stored
        res.hadConflict
      let broadcast := Msg.shapeEventMsg res.eventId eventType shapeId
        (jsOr (some res.payload) payload) ci.userId ci.username res.version
        (some res.stored) (jget payload "vectorClock")
        (jget payload "propertyTimestamps")
      ((sender, ack) ::
        (st.room.filter (fun w => w != sender)).map (fun w => (w, broadcast)),
       { st with store := store' })
    else ([(sender, .errorMsg "Not joined to any canvas")], st)

/-- One event of an inbound BATCH_SYNC message. -/
structure SubmittedEvent where
  localEventId : Option String
  eventType : String
  shapeId : Option String
  payload : JVal

/-- handleBatchSync: compute the missed events, store the batch under
the sender's user id, reply BATCH_SYNC_RESULT whose storedEvents entries
take their localEventId from the first submitted event with the same
shapeId and eventType as the stored event, then broadcast each stored
event to the other room members. -/
def handleBatchSync (st : WSState) (now : Int) (sender : Nat)
    (events : List SubmittedEvent) (lastKnownVersion : Nat) :
    List (Nat × Msg) × WSState :=
  match connLookup st.conns sender with
  | none => ([], st)
  | some ci =>
    if ci.joined then
      let missedEvents := eventsSince st.store lastKnownVersion
      let ((storedEvents, conflicts), store') := storeBatchEvents st.store now
        (events.map (fun e => ⟨ci.userId, e.eventType, e.shapeId, e.payload⟩))
      let state := getCanvasState store'
      let entries := storedEvents.map (fun e =>
        { localEventId := (events.find? (fun le =>
            le.shapeId == e.shapeId && le.eventType == e.eventType)).bind
            (fun le => le.localEventId),
          eventId := e.eventId, version := e.version,
          hadConflict := e.hadConflict : ResultEntry })
      ((sender, Msg.batchSyncResult true entries missedEvents state conflicts) ::
        storedEvents.flatMap (fun ev =>
          (st.room.filter (fun w => w != sender)).map (fun w =>
            (w, Msg.shapeEventMsg (some ev.eventId) ev.eventType ev.shapeId
              ev.payload ci.userId ci.username ev.version none
              (jget ev.payload "vectorClock")
              (jget ev.payload "propertyTimestamps")))),
       { st with store := store' })
    else ([(sender, .errorMsg "Not joined to any canvas")], st)

/-! # Theorems -/

/-! ### Association list lemmas -/

theorem plookup_eq_none_iff (m : Pmap) (k : String) :
    plookup m k = none ↔ k ∉ keysOf m := by
  induction m with
  | nil => simp [plookup, keysOf]
  | cons kv rest ih =>
      obtain ⟨k1, v1⟩ := kv
      by_cases h : k1 = k
      · subst h; simp [plookup, keysOf]
      · simp [plookup, h, keysOf, ih, Ne.symm h]

theorem plookup_isSome_iff (m : Pmap) (k : String) :
    (plookup m k).isSome = true ↔ k ∈ keysOf m := by
  rcases h : plookup m k with _ | v
  · rw [plookup_eq_none_iff] at h; simp [h]
  · have : ¬ plookup m k = none := by simp [h]
    rw [plookup_eq_none_iff] at this
    simp at this
    simp [this]

theorem plookup_jset (m : Pmap) (k : String) (v : JVal) (k' : String) :
    plookup (jset m k v) k' = if k = k' then some v else plookup m k' := by
  induction m with
  | nil => simp [jset, plookup]
  | cons kv rest ih =>
      obtain ⟨k1, v1⟩ := kv
      by_cases h1 : k1 = k
      · subst h1
        by_cases h2 : k1 = k'
        · subst h2; simp [jset, plookup]
        · simp [jset, plookup, h2]
      · by_cases h2 : k1 = k'
        · subst h2
          have hkk : ¬ k = k1 := fun hh => h1 hh.symm
          simp [jset, h1, plookup, hkk]
        · simp [jset, h1, plookup, h2, ih]

theorem plookup_psetSorted (m : Pmap) (k : String) (v : JVal) (k' : String) :
    plookup (psetSorted m k v) k' = if k = k' then some v else plookup m k' := by
  induction m with
  | nil => simp [psetSorted, plookup]
  | cons kv rest ih =>
      obtain ⟨k1, v1⟩ := kv
      by_cases h1 : k = k1
      · subst h1
        by_cases h2 : k = k'
        · subst h2; simp [psetSorted, plookup]
        · simp [psetSorted, plookup, h2, Ne.symm h2]
      · by_cases hlt : k < k1
        · by_cases h2 : k = k'
          · subst h2
            have : ¬ k1 = k := fun hh => h1 hh.symm
            simp [psetSorted, h1, hlt, plookup, this]
          · simp [psetSorted, h1, hlt, plookup, h2]
        · by_cases h2 : k1 = k'
          · subst h2
            have hkk : ¬ k = k1 := h1
            simp [psetSorted, h1, hlt, plookup, Ne.symm h1]
          · simp [psetSorted, h1, hlt, plookup, h2, ih]

theorem keysOf_cons (k1 : String) (v1 : JVal) (rest : Pmap) :
    keysOf ((k1, v1) :: rest) = k1 :: keysOf rest := rfl

theorem keysC_cons (k1 : String) (v1 : Int) (rest : Clock) :
    keysC ((k1, v1) :: rest) = k1 :: keysC rest := rfl

theorem keysOf_psetSorted_subset (m : Pmap) (k : String) (v : JVal) (k' : String)
    (h : k' ∈ keysOf (psetSorted m k v)) : k' = k ∨ k' ∈ keysOf m := by
  induction m with
  | nil =>
      simp only [psetSorted, keysOf_cons] at h
      simp [keysOf] at h
      exact Or.inl h
  | cons kv rest ih =>
      obtain ⟨k1, v1⟩ := kv
      by_cases h1 : k = k1
      · subst h1
        simp only [psetSorted, if_pos rfl, keysOf_cons] at h
        rcases List.mem_cons.mp h with h | h
        · exact Or.inl h
        · exact Or.inr (by rw [keysOf_cons]; exact List.mem_cons_of_mem _ h)
      · by_cases hlt : k < k1
        · simp only [psetSorted, if_neg h1, if_pos hlt, keysOf_cons] at h
          rcases List.mem_cons.mp h with h | h
          · exact Or.inl h
          · exact Or.inr h
        · simp only [psetSorted, if_neg h1, if_neg hlt, keysOf_cons] at h
          rw [keysOf_cons]
          rcases List.mem_cons.mp h with h | h
          · exact Or.inr (List.mem_cons.mpr (Or.inl h))
          · rcases ih h with h' | h'
            · exact Or.inl h'
            · exact Or.inr (List.mem_cons.mpr (Or.inr h'))

theorem plookup_pmerge_not_mem (a b : Pmap) (k : String) (h : k ∉ keysOf b) :
    plookup (pmerge a b) k = plookup a k := by
  rw [pmerge]
  induction b generalizing a with
  | nil => simp
  | cons kv rest ih =>
      obtain ⟨k1, v1⟩ := kv
      rw [keysOf_cons] at h
      simp only [List.mem_cons, not_or] at h
      rw [List.foldl_cons, ih _ h.2, plookup_psetSorted,
        if_neg (fun hh => h.1 hh.symm)]

theorem keysOf_pmerge_not_mem (a b : Pmap) (k : String)
    (ha : k ∉ keysOf a) (hb : k ∉ keysOf b) : k ∉ keysOf (pmerge a b) := by
  rw [pmerge]
  induction b generalizing a with
  | nil => simpa using ha
  | cons kv rest ih =>
      obtain ⟨k1, v1⟩ := kv
      rw [keysOf_cons] at hb
      simp only [List.mem_cons, not_or] at hb
      rw [List.foldl_cons]
      refine ih _ (fun hmem => ?_) hb.2
      rcases keysOf_psetSorted_subset _ _ _ _ hmem with h | h
      · exact hb.1 h
      · exact ha h

theorem cget_cset (c : Clock) (k : String) (v : Int) (k' : String) :
    cget (cset c k v) k' = if k = k' then v else cget c k' := by
  induction c with
  | nil => simp [cset, cget]
  | cons kv rest ih =>
      obtain ⟨k1, v1⟩ := kv
      by_cases h1 : k1 = k
      · subst h1
        by_cases h2 : k1 = k'
        · subst h2; simp [cset, cget]
        · simp [cset, cget, h2]
      · by_cases h2 : k1 = k'
        · subst h2
          have hkk : ¬ k = k1 := fun hh => h1 hh.symm
          simp [cset, h1, cget, hkk]
        · simp [cset, h1, cget, h2, ih]

theorem cget_eq_zero_of_not_mem (c : Clock) (k : String) (h : k ∉ keysC c) :
    cget c k = 0 := by
  induction c with
  | nil => simp [cget]
  | cons kv rest ih =>
      obtain ⟨k1, v1⟩ := kv
      rw [keysC_cons] at h
      simp only [List.mem_cons, not_or] at h
      rw [show cget ((k1, v1) :: rest) k = if k1 = k then v1 else cget rest k from rfl,
        if_neg (fun hh => h.1 hh.symm)]
      exact ih h.2

theorem mem_keysC_of_cget_ne_zero (c : Clock) (k : String) (h : cget c k ≠ 0) :
    k ∈ keysC c := by
  by_contra hmem
  exact h (cget_eq_zero_of_not_mem c k hmem)

/-! ### Deduplicated key lists -/

theorem mem_dedupAux (seen ks : List String) (a : String) :
    a ∈ dedupAux seen ks ↔ a ∈ ks ∧ a ∉ seen := by
  induction ks generalizing seen with
  | nil => simp [dedupAux]
  | cons k rest ih =>
      by_cases h : k ∈ seen
      · rw [dedupAux, if_pos h, ih, List.mem_cons]
        constructor
        · rintro ⟨hm, hs⟩; exact ⟨Or.inr hm, hs⟩
        · rintro ⟨hm | hm, hs⟩
          · subst hm; exact absurd h hs
          · exact ⟨hm, hs⟩
      · rw [dedupAux, if_neg h]
        constructor
        · intro hmem
          rcases List.mem_cons.mp hmem with rfl | hmem
          · exact ⟨List.mem_cons_self _ _, h⟩
          · rw [ih] at hmem
            have hs := hmem.2
            simp only [List.mem_cons, not_or] at hs
            exact ⟨List.mem_cons_of_mem _ hmem.1, hs.2⟩
        · rintro ⟨hm, hs⟩
          rcases List.mem_cons.mp hm with rfl | hm
          · exact List.mem_cons_self _ _
          · by_cases hak : a = k
            · subst hak; exact List.mem_cons_self _ _
            · refine List.mem_cons_of_mem _ ?_
              rw [ih]
              refine ⟨hm, ?_⟩
              simp only [List.mem_cons, not_or]
              exact ⟨hak, hs⟩

theorem mem_dedupKeys (ks : List String) (a : String) :
    a ∈ dedupKeys ks ↔ a ∈ ks := by
  simp [dedupKeys, mem_dedupAux]

theorem nodup_dedupAux (seen ks : List String) : (dedupAux seen ks).Nodup := by
  induction ks generalizing seen with
  | nil => simp [dedupAux]
  | cons k rest ih =>
      by_cases h : k ∈ seen
      · rw [dedupAux, if_pos h]; exact ih seen
      · rw [dedupAux, if_neg h, List.nodup_cons]
        refine ⟨?_, ih (k :: seen)⟩
        intro hmem
        rw [mem_dedupAux] at hmem
        exact hmem.2 (List.mem_cons_self _ _)

theorem nodup_dedupKeys (ks : List String) : (dedupKeys ks).Nodup :=
  nodup_dedupAux [] ks

/-! ### Vector clock lemmas -/

theorem cget_foldl_cset (b : Clock) (ns : List String) (c : Clock) (k : String)
    (hnd : ns.Nodup) :
    cget (ns.foldl (fun c n => cset c n (max (cget c n) (cget b n))) c) k =
      if k ∈ ns then max (cget c k) (cget b k) else cget c k := by
  induction ns generalizing c with
  | nil => simp
  | cons n rest ih =>
      rw [List.nodup_cons] at hnd
      rw [List.foldl_cons, ih _ hnd.2]
      by_cases hk : k ∈ rest
      · rw [if_pos hk, if_pos (List.mem_cons_of_mem _ hk)]
        have hkn : n ≠ k := fun hh => hnd.1 (hh ▸ hk)
        rw [cget_cset, if_neg hkn]
      · rw [if_neg hk]
        by_cases hkn : n = k
        · subst hkn
          rw [if_pos (List.mem_cons_self _ _), cget_cset, if_pos rfl]
        · rw [cget_cset, if_neg hkn,
            if_neg (fun hmem => (List.mem_cons.mp hmem).elim
              (fun hh => hkn hh.symm) hk)]

theorem cget_vcMerge (a b : Clock) (k : String) :
    cget (vcMerge a b) k = max (cget a k) (cget b k) := by
  rw [vcMerge, cget_foldl_cset b _ a k (nodup_dedupKeys _)]
  by_cases hk : k ∈ dedupKeys (keysC a ++ keysC b)
  · rw [if_pos hk]
  · rw [if_neg hk]
    rw [mem_dedupKeys, List.mem_append] at hk
    push_neg at hk
    rw [cget_eq_zero_of_not_mem a k hk.1, cget_eq_zero_of_not_mem b k hk.2]
    simp

theorem vcHappenedBefore_iff (a b : Clock) :
    vcHappenedBefore a b = true ↔ specHappensBefore a b := by
  rw [specHappensBefore]
  simp only [vcHappenedBefore, Bool.and_eq_true, List.all_eq_true,
    List.any_eq_true, decide_eq_true_eq]
  constructor
  · rintro ⟨hall, k0, hk0, hlt⟩
    refine ⟨fun k => ?_, ⟨k0, hlt⟩⟩
    by_cases hk : k ∈ dedupKeys (keysC a ++ keysC b)
    · exact hall k hk
    · rw [mem_dedupKeys, List.mem_append] at hk
      push_neg at hk
      rw [cget_eq_zero_of_not_mem a k hk.1, cget_eq_zero_of_not_mem b k hk.2]
  · rintro ⟨hall, k0, hlt⟩
    refine ⟨fun k _ => hall k, ⟨k0, ?_, hlt⟩⟩
    rw [mem_dedupKeys, List.mem_append]
    by_cases hb0 : cget b k0 = 0
    · refine Or.inl (mem_keysC_of_cget_ne_zero a k0 (fun ha0 => ?_))
      rw [ha0, hb0] at hlt
      exact absurd hlt (lt_irrefl 0)
    · exact Or.inr (mem_keysC_of_cget_ne_zero b k0 hb0)

theorem specHappensBefore_asymm (a b : Clock) (h : specHappensBefore a b) :
    ¬ specHappensBefore b a := by
  rintro ⟨hle, -⟩
  obtain ⟨-, k, hlt⟩ := h
  have := hle k
  omega

/-! ### Pointwise description of mergeShapeProperties -/

theorem plookup_mergeStep (lp rp : Option Pmap) (lts rts : Pmap) (m0 : Pmap)
    (a k : String) :
    plookup (mergeStep lp rp lts rts m0 a) k =
      if a = k then (mergeChoice lp rp lts rts a).orElse (fun _ => plookup m0 k)
      else plookup m0 k := by
  rw [mergeStep, mergeChoice]
  rcases hlv : lp.bind (fun m => plookup m a) with _ | l <;>
    rcases hrv : rp.bind (fun m => plookup m a) with _ | r
  · simp only
    by_cases hak : a = k <;> simp [hak, Option.orElse]
  · simp only [plookup_jset]
    by_cases hak : a = k <;> simp [hak, Option.orElse]
  · simp only [plookup_jset]
    by_cases hak : a = k <;> simp [hak, Option.orElse]
  · simp only
    by_cases hak : a = k
    · subst hak
      by_cases hts : asIntD (plookup rts a) < asIntD (plookup lts a) <;>
        simp [hts, plookup_jset, Option.orElse]
    · by_cases hts : asIntD (plookup rts a) < asIntD (plookup lts a) <;>
        simp [hts, hak, plookup_jset, Option.orElse]

theorem plookup_merge_foldl (lp rp : Option Pmap) (lts rts : Pmap)
    (ks : List String) (m0 : Pmap) (k : String) :
    plookup (ks.foldl (mergeStep lp rp lts rts) m0) k =
      if k ∈ ks then (mergeChoice lp rp lts rts k).orElse (fun _ => plookup m0 k)
      else plookup m0 k := by
  induction ks generalizing m0 with
  | nil => simp
  | cons a rest ih =>
      rw [List.foldl_cons, ih]
      by_cases hk : k ∈ rest
      · rw [if_pos hk, if_pos (List.mem_cons_of_mem _ hk), plookup_mergeStep]
        by_cases hak : a = k
        · subst hak
          rcases hc : mergeChoice lp rp lts rts a with _ | v <;>
            simp [Option.orElse]
        · rw [if_neg hak]
      · rw [if_neg hk, plookup_mergeStep]
        by_cases hak : a = k
        · subst hak
          rw [if_pos (List.mem_cons_self _ _), if_pos rfl]
        · rw [if_neg hak,
            if_neg (fun hmem => (List.mem_cons.mp hmem).elim
              (fun hh => hak hh.symm) hk)]

theorem obind_plookup_eq_none (op : Option Pmap) (k : String)
    (h : k ∉ keysOf (op.getD [])) : op.bind (fun m => plookup m k) = none := by
  cases op with
  | none => rfl
  | some m =>
      simp only [Option.getD] at h
      simp [plookup_eq_none_iff, h]

theorem plookup_mergeShapeProperties (base : Pmap) (lp rp : Option Pmap)
    (lts rts : Pmap) (k : String) :
    plookup (mergeShapeProperties base lp rp lts rts) k =
      specMergeValue base lp rp lts rts k := by
  rw [mergeShapeProperties, plookup_merge_foldl, specMergeValue]
  by_cases hk : k ∈ dedupKeys (keysOf (lp.getD []) ++ keysOf (rp.getD []))
  · rw [if_pos hk, mergeChoice]
    rcases hlv : lp.bind (fun m => plookup m k) with _ | l <;>
      rcases hrv : rp.bind (fun m => plookup m k) with _ | r
    · exfalso
      rw [mem_dedupKeys, List.mem_append] at hk
      rcases hk with hk | hk
      · cases lp with
        | none => simp [keysOf] at hk
        | some m =>
            simp only [Option.getD] at hk
            have hcon : plookup m k = none := hlv
            rw [plookup_eq_none_iff] at hcon
            exact hcon hk
      · cases rp with
        | none => simp [keysOf] at hk
        | some m =>
            simp only [Option.getD] at hk
            have hcon : plookup m k = none := hrv
            rw [plookup_eq_none_iff] at hcon
            exact hcon hk
    · simp [Option.orElse]
    · simp [Option.orElse]
    · by_cases hts : asIntD (plookup lts k) > asIntD (plookup rts k) <;>
        simp [hts, Option.orElse]
  · rw [if_neg hk]
    rw [mem_dedupKeys, List.mem_append] at hk
    push_neg at hk
    rw [obind_plookup_eq_none lp k hk.1, obind_plookup_eq_none rp k hk.2]

theorem plookup_mem (m : Pmap) (k : String) (v : JVal)
    (h : plookup m k = some v) : (k, v) ∈ m := by
  induction m with
  | nil => simp [plookup] at h
  | cons kv rest ih =>
      obtain ⟨k1, v1⟩ := kv
      by_cases hk : k1 = k
      · subst hk
        rw [show plookup ((k1, v1) :: rest) k1 = some v1 from by
          simp [plookup]] at h
        obtain rfl := Option.some.inj h
        exact List.mem_cons_self _ _
      · rw [show plookup ((k1, v1) :: rest) k = plookup rest k from by
          simp [plookup, hk]] at h
        exact List.mem_cons_of_mem _ (ih h)

theorem plookup_applyProps (base p : Pmap) (k : String)
    (hnd : (keysOf p).Nodup) :
    plookup (applyProps base p) k =
      (plookup p k).orElse (fun _ => plookup base k) := by
  induction p generalizing base with
  | nil => simp [applyProps, plookup, Option.orElse]
  | cons kv rest ih =>
      obtain ⟨k1, v1⟩ := kv
      rw [keysOf_cons, List.nodup_cons] at hnd
      rw [show applyProps base ((k1, v1) :: rest) =
        applyProps (jset base k1 v1) rest from rfl, ih _ hnd.2]
      by_cases hk : k1 = k
      · subst hk
        rw [(plookup_eq_none_iff _ _).mpr hnd.1]
        simp [plookup, plookup_jset, Option.orElse]
      · simp [plookup, hk, plookup_jset, Option.orElse]

/-! ### Claim C3: the client resolver's case analysis -/

/-- C3: for every local shape state with clock L and remote event with
clock R, the resolver returns KEEP_LOCAL with the unchanged local shape
when R happened before L; APPLY_REMOTE with the remote properties when L
happened before R; and otherwise MERGE, where each key touched on either
side takes the value with the greater property-timestamp (remote winning
ties), keys untouched on both sides keep the base value, and the local
vector clock becomes the pointwise maximum of L and R. -/
theorem claim_C3_resolver (r : Resolver) (shapeId : String) (localShape : Pmap)
    (remote : RemoteEvent) :
    (specHappensBefore (remote.vectorClock.getD []) r.vectorClock →
        resolveConflict r shapeId localShape remote =
          ({ action := .KEEP_LOCAL, shape := some localShape }, r)) ∧
    (¬ specHappensBefore (remote.vectorClock.getD []) r.vectorClock →
        specHappensBefore r.vectorClock (remote.vectorClock.getD []) →
        resolveConflict r shapeId localShape remote =
          ({ action := .APPLY_REMOTE, shape := remote.payloadProperties }, r)) ∧
    (¬ specHappensBefore (remote.vectorClock.getD []) r.vectorClock →
      ¬ specHappensBefore r.vectorClock (remote.vectorClock.getD []) →
        (resolveConflict r shapeId localShape remote).1.action = .MERGE ∧
        (∃ m, (resolveConflict r shapeId localShape remote).1.shape = some m ∧
          ∀ k, plookup m k = specMergeValue localShape (some localShape)
            remote.payloadProperties
            ((tsLookup r.propertyTimestamps shapeId).getD [])
            (remote.propertyTimestamps.getD []) k) ∧
        (∀ k, cget (resolveConflict r shapeId localShape remote).2.vectorClock k =
          max (cget r.vectorClock k) (cget (remote.vectorClock.getD []) k)) ∧
        (resolveConflict r shapeId localShape remote).2.userId = r.userId ∧
        (resolveConflict r shapeId localShape remote).2.propertyTimestamps =
          r.propertyTimestamps) := by
  refine ⟨?_, ?_, ?_⟩
  · intro h1
    rw [← vcHappenedBefore_iff] at h1
    simp [resolveConflict, h1]
  · intro h1 h2
    rw [← vcHappenedBefore_iff] at h2
    have hb1 : vcHappenedBefore (remote.vectorClock.getD []) r.vectorClock = false := by
      rw [Bool.eq_false_iff]
      intro hcon
      exact h1 ((vcHappenedBefore_iff _ _).mp hcon)
    simp [resolveConflict, hb1, h2]
  · intro h1 h2
    have hb1 : vcHappenedBefore (remote.vectorClock.getD []) r.vectorClock = false := by
      rw [Bool.eq_false_iff]
      intro hcon
      exact h1 ((vcHappenedBefore_iff _ _).mp hcon)
    have hb2 : vcHappenedBefore r.vectorClock (remote.vectorClock.getD []) = false := by
      rw [Bool.eq_false_iff]
      intro hcon
      exact h2 ((vcHappenedBefore_iff _ _).mp hcon)
    refine ⟨by simp [resolveConflict, hb1, hb2], ⟨?_, ?_, ?_, ?_⟩⟩
    · refine ⟨mergeShapeProperties localShape (some localShape)
        remote.payloadProperties
        ((tsLookup r.propertyTimestamps shapeId).getD [])
        (remote.propertyTimestamps.getD []), ?_, ?_⟩
      · simp [resolveConflict, hb1, hb2]
      · intro k
        exact plookup_mergeShapeProperties _ _ _ _ _ _
    · intro k
      simp only [resolveConflict, hb1, hb2, Bool.false_eq_true, if_false]
      exact cget_vcMerge _ _ _
    · simp [resolveConflict, hb1, hb2]
    · simp [resolveConflict, hb1, hb2]

/-- Witness for C3 at the concrete concurrent scenario of spec section 8. -/
theorem claim_C3_resolver_witness :
    (resolveConflict ⟨"A", [("A", 1)], [("s1", [("strokeColor", .jnum 1000)])]⟩
      "s1" [("strokeColor", .jstr "#f00"), ("strokeWidth", .jnum 2)]
      ⟨some [("B", 1)], some [("strokeWidth", .jnum 5)],
        some [("strokeWidth", .jnum 1001)]⟩).1.action = .MERGE := by
  have h := (claim_C3_resolver
    ⟨"A", [("A", 1)], [("s1", [("strokeColor", .jnum 1000)])]⟩
    "s1" [("strokeColor", .jstr "#f00"), ("strokeWidth", .jnum 2)]
    ⟨some [("B", 1)], some [("strokeWidth", .jnum 5)],
      some [("strokeWidth", .jnum 1001)]⟩).2.2
    (by rw [← vcHappenedBefore_iff]; decide)
    (by rw [← vcHappenedBefore_iff]; decide)
  exact h.1

/-! ### Claim C4: causality soundness of the resolver -/

/-- C4: if clock A happened before clock B then happenedBefore is
asymmetric (B did not happen before A), so the resolver invoked with
local clock A against a remote event with clock B never returns
KEEP_LOCAL. -/
theorem claim_C4_causality (A B : Clock) (r : Resolver) (shapeId : String)
    (localShape : Pmap) (remote : RemoteEvent)
    (hA : r.vectorClock = A) (hB : remote.vectorClock = some B)
    (h : vcHappenedBefore A B = true) :
    vcHappenedBefore B A = false ∧
    (resolveConflict r shapeId localShape remote).1.action ≠ .KEEP_LOCAL := by
  have hspec := (vcHappenedBefore_iff A B).mp h
  have hBA : vcHappenedBefore B A = false := by
    rw [Bool.eq_false_iff]
    intro hcon
    exact specHappensBefore_asymm A B hspec ((vcHappenedBefore_iff B A).mp hcon)
  refine ⟨hBA, ?_⟩
  simp [resolveConflict, hA, hB, hBA, h]

/-- Witness for C4: the empty clock happened before a one-entry clock,
and the resolver applies the remote side there. -/
theorem claim_C4_causality_witness :
    vcHappenedBefore [] [("u", 1)] = true ∧
    (vcHappenedBefore [("u", 1)] [] = false ∧
      (resolveConflict ⟨"w", [], []⟩ "s" []
        ⟨some [("u", 1)], none, none⟩).1.action ≠ .KEEP_LOCAL) :=
  ⟨by decide, claim_C4_causality [] [("u", 1)] ⟨"w", [], []⟩ "s" []
    ⟨some [("u", 1)], none, none⟩ rfl rfl (by decide)⟩

/-! ### Claim C6: merge commutativity for disjoint keys -/

theorem asIntD_plookup_nonneg (ts : Pmap) (k : String)
    (h : ∀ kv ∈ ts, 0 ≤ asIntD (some kv.2)) : 0 ≤ asIntD (plookup ts k) := by
  rcases hl : plookup ts k with _ | v
  · simp [asIntD, jsOr, asInt]
  · exact h (k, v) (plookup_mem _ _ _ hl)

/-- The merged value on one side of the disjoint-edit scenario: the
editing side's value wins for its keys, the other side's value for the
other keys, the base value elsewhere. Stated for the client whose local
edit is pA (timestamps tsA) receiving the remote edit pB (timestamps
tsB, nonnegative); the two edits touch disjoint keys. -/
theorem specMergeValue_disjoint (base pA pB tsA tsB : Pmap) (k : String)
    (hdisjA : ∀ k ∈ keysOf pA, plookup pB k = none ∧ plookup tsB k = none)
    (hdisjB : ∀ k ∈ keysOf pB, plookup pA k = none ∧ plookup tsA k = none)
    (hndA : (keysOf pA).Nodup)
    (hnnB : ∀ kv ∈ tsB, 0 ≤ asIntD (some kv.2)) :
    specMergeValue (applyProps base pA) (some (applyProps base pA)) (some pB)
        tsA tsB k =
      (plookup pA k).orElse (fun _ =>
        (plookup pB k).orElse (fun _ => plookup base k)) := by
  have hlocalA := plookup_applyProps base pA k hndA
  rw [specMergeValue]
  rcases hpA : plookup pA k with _ | a <;> rcases hpB : plookup pB k with _ | b
  · rw [hpA] at hlocalA
    simp only [Option.orElse] at hlocalA
    rcases hbase : plookup base k with _ | b0 <;> rw [hbase] at hlocalA <;>
      simp [hlocalA, hpB, hbase, Option.orElse]
  · rw [hpA] at hlocalA
    simp only [Option.orElse] at hlocalA
    have hmemB : k ∈ keysOf pB :=
      (plookup_isSome_iff pB k).mp (by rw [hpB]; rfl)
    have htsA0 : plookup tsA k = none := (hdisjB k hmemB).2
    have htsB := asIntD_plookup_nonneg tsB k hnnB
    rcases hbase : plookup base k with _ | b0 <;> rw [hbase] at hlocalA
    · simp [hlocalA, hpB, Option.orElse]
    · have hcond : ¬ (asIntD (plookup tsA k) > asIntD (plookup tsB k)) := by
        rw [htsA0, show asIntD (none : Option JVal) = 0 from rfl]
        omega
      simp [hlocalA, hpB, hcond, Option.orElse]
  · have hmemA : k ∈ keysOf pA :=
      (plookup_isSome_iff pA k).mp (by rw [hpA]; rfl)
    rw [hpA] at hlocalA
    simp only [Option.orElse] at hlocalA
    simp [hlocalA, hpB, Option.orElse]
  · exfalso
    have hmemA : k ∈ keysOf pA :=
      (plookup_isSome_iff pA k).mp (by rw [hpA]; rfl)
    rw [(hdisjA k hmemA).1] at hpB
    exact Option.noConfusion hpB

/-- C6: two concurrent edits of the same shape touching disjoint
property keys resolve, at either client, to the same merged state: the
union of both edits' values over the base. Concretely instantiable by
the scenario of spec section 8 (strokeColor versus strokeWidth). -/
theorem claim_C6_disjoint_merge
    (base pA pB tsA tsB : Pmap) (cA cB : Clock) (uA uB sid : String)
    (hdisjA : ∀ k ∈ keysOf pA, plookup pB k = none ∧ plookup tsB k = none)
    (hdisjB : ∀ k ∈ keysOf pB, plookup pA k = none ∧ plookup tsA k = none)
    (hndA : (keysOf pA).Nodup) (hndB : (keysOf pB).Nodup)
    (hnnA : ∀ kv ∈ tsA, 0 ≤ asIntD (some kv.2))
    (hnnB : ∀ kv ∈ tsB, 0 ≤ asIntD (some kv.2))
    (hc1 : vcHappenedBefore cA cB = false)
    (hc2 : vcHappenedBefore cB cA = false) :
    (resolveConflict ⟨uA, cA, [(sid, tsA)]⟩ sid (applyProps base pA)
        ⟨some cB, some pB, some tsB⟩).1.action = .MERGE ∧
    (resolveConflict ⟨uB, cB, [(sid, tsB)]⟩ sid (applyProps base pB)
        ⟨some cA, some pA, some tsA⟩).1.action = .MERGE ∧
    ∃ mA mB,
      (resolveConflict ⟨uA, cA, [(sid, tsA)]⟩ sid (applyProps base pA)
          ⟨some cB, some pB, some tsB⟩).1.shape = some mA ∧
      (resolveConflict ⟨uB, cB, [(sid, tsB)]⟩ sid (applyProps base pB)
          ⟨some cA, some pA, some tsA⟩).1.shape = some mB ∧
      (∀ k, plookup mA k = plookup mB k) ∧
      (∀ k, plookup mA k = (plookup pA k).orElse (fun _ =>
        (plookup pB k).orElse (fun _ => plookup base k))) := by
  have hvalA : ∀ k, plookup (mergeShapeProperties (applyProps base pA)
      (some (applyProps base pA)) (some pB) tsA tsB) k =
      (plookup pA k).orElse (fun _ =>
        (plookup pB k).orElse (fun _ => plookup base k)) := by
    intro k
    rw [plookup_mergeShapeProperties]
    exact specMergeValue_disjoint base pA pB tsA tsB k hdisjA hdisjB hndA hnnB
  have hvalB : ∀ k, plookup (mergeShapeProperties (applyProps base pB)
      (some (applyProps base pB)) (some pA) tsB tsA) k =
      (plookup pB k).orElse (fun _ =>
        (plookup pA k).orElse (fun _ => plookup base k)) := by
    intro k
    rw [plookup_mergeShapeProperties]
    exact specMergeValue_disjoint base pB pA tsB tsA k
      (fun k hk => ⟨(hdisjB k hk).1, (hdisjB k hk).2⟩)
      (fun k hk => ⟨(hdisjA k hk).1, (hdisjA k hk).2⟩) hndB hnnA
  refine ⟨by simp [resolveConflict, hc1, hc2],
          by simp [resolveConflict, hc1, hc2], ?_⟩
  refine ⟨mergeShapeProperties (applyProps base pA) (some (applyProps base pA))
      (some pB) tsA tsB,
    mergeShapeProperties (applyProps base pB) (some (applyProps base pB))
      (some pA) tsB tsA, ?_, ?_, ?_, hvalA⟩
  · simp [resolveConflict, hc1, hc2, tsLookup]
  · simp [resolveConflict, hc1, hc2, tsLookup]
  · intro k
    rw [hvalA k, hvalB k]
    rcases hpA : plookup pA k with _ | a <;> rcases hpB : plookup pB k with _ | b <;>
      simp [Option.orElse]
    exfalso
    have hmemA : k ∈ keysOf pA :=
      (plookup_isSome_iff pA k).mp (by rw [hpA]; rfl)
    rw [(hdisjA k hmemA).1] at hpB
    exact Option.noConfusion hpB

/-- Witness for C6 at the literal scenario of spec section 8: base
properties strokeColor #000 / strokeWidth 2, one edit of strokeColor at
timestamp 1000 with clock A:1, one of strokeWidth at timestamp 1001 with
clock B:1; both delivery orders take the MERGE branch and the merged
properties are strokeColor #f00 and strokeWidth 5. -/
theorem claim_C6_disjoint_merge_witness :
    ((resolveConflict ⟨"A", [("A", 1)], [("s1", [("strokeColor", .jnum 1000)])]⟩
        "s1" (applyProps [("strokeColor", .jstr "#000"), ("strokeWidth", .jnum 2)]
          [("strokeColor", .jstr "#f00")])
        ⟨some [("B", 1)], some [("strokeWidth", .jnum 5)],
          some [("strokeWidth", .jnum 1001)]⟩).1.action = .MERGE ∧
     (resolveConflict ⟨"B", [("B", 1)], [("s1", [("strokeWidth", .jnum 1001)])]⟩
        "s1" (applyProps [("strokeColor", .jstr "#000"), ("strokeWidth", .jnum 2)]
          [("strokeWidth", .jnum 5)])
        ⟨some [("A", 1)], some [("strokeColor", .jstr "#f00")],
          some [("strokeColor", .jnum 1000)]⟩).1.action = .MERGE) ∧
    (mergeShapeProperties
        (applyProps [("strokeColor", .jstr "#000"), ("strokeWidth", .jnum 2)]
          [("strokeColor", .jstr "#f00")])
        (some (applyProps [("strokeColor", .jstr "#000"), ("strokeWidth", .jnum 2)]
          [("strokeColor", .jstr "#f00")]))
        (some [("strokeWidth", .jnum 5)])
        [("strokeColor", .jnum 1000)] [("strokeWidth", .jnum 1001)]) =
      [("strokeColor", .jstr "#f00"), ("strokeWidth", .jnum 5)] := by
  have h := claim_C6_disjoint_merge
    [("strokeColor", .jstr "#000"), ("strokeWidth", .jnum 2)]
    [("strokeColor", .jstr "#f00")] [("strokeWidth", .jnum 5)]
    [("strokeColor", .jnum 1000)] [("strokeWidth", .jnum 1001)]
    [("A", 1)] [("B", 1)] "A" "B" "s1"
    (by intro k hk; simp [keysOf] at hk; subst hk; exact ⟨rfl, rfl⟩)
    (by intro k hk; simp [keysOf] at hk; subst hk; exact ⟨rfl, rfl⟩)
    (by simp [keysOf]) (by simp [keysOf])
    (by intro kv hkv; simp at hkv; subst hkv; simp [asIntD, jsOr, truthy, asInt])
    (by intro kv hkv; simp at hkv; subst hkv; simp [asIntD, jsOr, truthy, asInt])
    (by decide) (by decide)
  exact ⟨⟨h.1, h.2.1⟩, rfl⟩

/-! ### Claim C9: non-storable kinds perform no write -/

/-- C9: for a non-storable event kind, storeEvent returns a null
eventId, the unchanged current maximum version and stored = false, the
state is untouched, and in particular both the event log and the shapes
projection are exactly as before. -/
theorem claim_C9_nonstorable_noop (st : StoreState) (now : Int)
    (userId eventType : String) (shapeId : Option String) (payload : JVal)
    (h : shouldStoreEvent eventType = false) :
    (storeEvent st now userId eventType shapeId payload).1.eventId = none ∧
    (storeEvent st now userId eventType shapeId payload).1.version = maxVersion st ∧
    (storeEvent st now userId eventType shapeId payload).1.stored = false ∧
    (storeEvent st now userId eventType shapeId payload).2 = st ∧
    (storeEvent st now userId eventType shapeId payload).2.events = st.events ∧
    (storeEvent st now userId eventType shapeId payload).2.shapes = st.shapes := by
  simp [storeEvent, h]

/-- Witness for C9: a CURSOR_MOVE against a fresh canvas. -/
theorem claim_C9_nonstorable_noop_witness :
    shouldStoreEvent "CURSOR_MOVE" = false ∧
    (storeEvent initialStore 0 "u" "CURSOR_MOVE" none .jnull).1.eventId = none ∧
    (storeEvent initialStore 0 "u" "CURSOR_MOVE" none .jnull).1.stored = false :=
  ⟨by decide,
   (claim_C9_nonstorable_noop initialStore 0 "u" "CURSOR_MOVE" none .jnull
     (by decide)).1,
   (claim_C9_nonstorable_noop initialStore 0 "u" "CURSOR_MOVE" none .jnull
     (by decide)).2.2.1⟩

/-! ### Claim C2: dense per-canvas versions -/

theorem foldl_max_range' (n : Nat) : List.foldl max 0 (List.range' 1 n) = n := by
  induction n with
  | zero => rfl
  | succ n ih =>
      rw [List.range'_1_concat, List.foldl_append, ih]
      simp [Nat.max_def]
      omega

theorem maxVersion_eq_length (st : StoreState)
    (h : st.events.map StoredEvent.version = List.range' 1 st.events.length) :
    maxVersion st = st.events.length := by
  rw [maxVersion, ← List.foldl_map StoredEvent.version max st.events 0, h,
    foldl_max_range']

theorem commitEvent_snd_events (st : StoreState) (now : Int) (u et : String)
    (sid : Option String) (p : JVal) :
    ∃ pl, (commitEvent st now u et sid p).2.events =
      st.events ++ [⟨st.nextId, sid, u, et, pl, maxVersion st + 1⟩] :=
  ⟨_, rfl⟩

theorem dense_commitEvent (st : StoreState) (now : Int) (u et : String)
    (sid : Option String) (p : JVal)
    (h : st.events.map StoredEvent.version = List.range' 1 st.events.length) :
    (commitEvent st now u et sid p).2.events.map StoredEvent.version =
      List.range' 1 (commitEvent st now u et sid p).2.events.length := by
  obtain ⟨pl, hev⟩ := commitEvent_snd_events st now u et sid p
  rw [hev, List.map_append, h, List.length_append]
  simp only [List.length_cons, List.length_nil, List.map_cons, List.map_nil,
    Nat.zero_add]
  rw [List.range'_1_concat]
  have := maxVersion_eq_length st h
  simp [this, Nat.add_comm]

theorem storeEvent_snd (st : StoreState) (now : Int) (u et : String)
    (sid : Option String) (p : JVal) :
    (storeEvent st now u et sid p).2 =
      if shouldStoreEvent et then (commitEvent st now u et sid p).2 else st := by
  by_cases h : shouldStoreEvent et <;> simp [storeEvent, h]

theorem storeBatchStep_snd (now : Int)
    (acc : (List BatchStored × List BatchConflict) × StoreState) (e : BatchItem) :
    (storeBatchStep now acc e).2 =
      if shouldStoreEvent e.eventType then
        (commitEvent acc.2 now e.userId e.eventType e.shapeId e.payload).2
      else acc.2 := by
  by_cases h : shouldStoreEvent e.eventType <;> simp [storeBatchStep, h]

theorem dense_batch_foldl (now : Int) (evs : List BatchItem)
    (acc : (List BatchStored × List BatchConflict) × StoreState)
    (h : acc.2.events.map StoredEvent.version = List.range' 1 acc.2.events.length) :
    (evs.foldl (storeBatchStep now) acc).2.events.map StoredEvent.version =
      List.range' 1 (evs.foldl (storeBatchStep now) acc).2.events.length := by
  induction evs generalizing acc with
  | nil => exact h
  | cons e rest ih =>
      rw [List.foldl_cons]
      refine ih _ ?_
      rw [storeBatchStep_snd]
      by_cases hs : shouldStoreEvent e.eventType
      · rw [if_pos hs]
        exact dense_commitEvent _ _ _ _ _ _ h
      · rw [if_neg hs]
        exact h

theorem dense_runCall (st : StoreState) (c : Call)
    (h : st.events.map StoredEvent.version = List.range' 1 st.events.length) :
    (runCall st c).events.map StoredEvent.version =
      List.range' 1 (runCall st c).events.length := by
  cases c with
  | store now u et sid p =>
      have hrc : runCall st (Call.store now u et sid p) =
        (storeEvent st now u et sid p).2 := rfl
      rw [hrc, storeEvent_snd]
      by_cases hs : shouldStoreEvent et
      · rw [if_pos hs]
        exact dense_commitEvent _ _ _ _ _ _ h
      · rw [if_neg hs]
        exact h
  | batch now evs =>
      exact dense_batch_foldl now evs _ h

/-- C2: over every sequence of storeEvent and storeBatchEvents calls on
a fresh canvas, the stored versions are exactly 1, 2, ..., n in order:
the first stored event gets version 1 and each later stored event gets
the previous maximum plus one, with no gaps and no reuse. -/
theorem claim_C2_version_density (tr : List Call) :
    (runTrace initialStore tr).events.map StoredEvent.version =
      List.range' 1 (runTrace initialStore tr).events.length := by
  suffices hgen : ∀ st, st.events.map StoredEvent.version =
      List.range' 1 st.events.length →
      (runTrace st tr).events.map StoredEvent.version =
        List.range' 1 (runTrace st tr).events.length by
    exact hgen initialStore rfl
  induction tr with
  | nil => intro st h; exact h
  | cons c rest ih =>
      intro st h
      rw [show runTrace st (c :: rest) = runTrace (runCall st c) rest from rfl]
      exact ih _ (dense_runCall st c h)

/-! ### Claim C5: the store does not deduplicate replayed events -/

/-- C5 (code-bug evidence): storeEvent receives no localEventId at all
and performs no deduplication, so replaying the very same payload for
the same canvas appends a second stored event with the next version;
the log grows from one row to two. -/
theorem claim_C5_replay_appends :
    (storeEvent (storeEvent initialStore 1000 "u1" "SHAPE_CREATED" (some "S1")
        (.jobj [("type", .jstr "rectangle"),
                ("properties", .jobj [("x", .jnum 10)]), ("zIndex", .jnum 0)])).2
      2000 "u1" "SHAPE_CREATED" (some "S1")
      (.jobj [("type", .jstr "rectangle"),
              ("properties", .jobj [("x", .jnum 10)]), ("zIndex", .jnum 0)])).1.stored
      = true ∧
    (storeEvent (storeEvent initialStore 1000 "u1" "SHAPE_CREATED" (some "S1")
        (.jobj [("type", .jstr "rectangle"),
                ("properties", .jobj [("x", .jnum 10)]), ("zIndex", .jnum 0)])).2
      2000 "u1" "SHAPE_CREATED" (some "S1")
      (.jobj [("type", .jstr "rectangle"),
              ("properties", .jobj [("x", .jnum 10)]), ("zIndex", .jnum 0)])).1.version
      = 2 ∧
    (storeEvent (storeEvent initialStore 1000 "u1" "SHAPE_CREATED" (some "S1")
        (.jobj [("type", .jstr "rectangle"),
                ("properties", .jobj [("x", .jnum 10)]), ("zIndex", .jnum 0)])).2
      2000 "u1" "SHAPE_CREATED" (some "S1")
      (.jobj [("type", .jstr "rectangle"),
              ("properties", .jobj [("x", .jnum 10)]), ("zIndex", .jnum 0)])).2.events.length
      = 2 :=
  ⟨rfl, rfl, rfl⟩

/-! ### Claim C8: server-side conflict detection and merge -/

/-- C8 (amended): when a storable shape event whose payload carries a
vector clock arrives for an existing shape row whose last update is
later than the client's declared base timestamp minus one second, the
store flags the event hadConflict = true, and what is stored — in the
result handed to the fan-out, in the appended log row and in the
projection — is the merged payload produced by the per-property
timestamp merge against the row (the server's recorded per-property
timestamps being empty), not the raw client payload. -/
theorem claim_C8_conflict_merge (st : StoreState) (now : Int)
    (userId eventType : String) (sid : String) (payload : JVal) (row : ShapeRow)
    (hstorable : shouldStoreEvent eventType = true)
    (hrow : getShape st.shapes sid = some row)
    (hvc : truthyO (jget payload "vectorClock") = true)
    (hwin : row.updated_at > clientBaseTimestamp payload - 1000) :
    (storeEvent st now userId eventType (some sid) payload).1.hadConflict =
      some true ∧
    (storeEvent st now userId eventType (some sid) payload).1.payload =
      resolveConflictServer ⟨sid, row.properties, row.updated_at⟩ payload ∧
    (storeEvent st now userId eventType (some sid) payload).2.events =
      st.events ++ [⟨st.nextId, some sid, userId, eventType,
        resolveConflictServer ⟨sid, row.properties, row.updated_at⟩ payload,
        maxVersion st + 1⟩] ∧
    (storeEvent st now userId eventType (some sid) payload).2.shapes =
      applyEvent st.shapes now eventType (some sid)
        (resolveConflictServer ⟨sid, row.properties, row.updated_at⟩ payload) := by
  have hdet : detectConflict st.shapes (some sid) payload =
      some ⟨sid, row.properties, row.updated_at⟩ := by
    simp [detectConflict, hrow, hvc, hwin]
  refine ⟨?_, ?_, ?_, ?_⟩ <;> simp [storeEvent, commitEvent, hstorable, hdet]

/-- Witness for C8: a SHAPE_EDITED carrying a vector clock against a
shape created half a second before the declared base timestamp is
flagged as a conflict. -/
theorem claim_C8_conflict_merge_witness :
    (storeEvent
      (storeEvent initialStore 5000 "u1" "SHAPE_CREATED" (some "S1")
        (.jobj [("type", .jstr "rectangle"),
                ("properties", .jobj [("x", .jnum 1)])])).2
      6000 "u2" "SHAPE_EDITED" (some "S1")
      (.jobj [("properties", .jobj [("x", .jnum 2)]),
              ("timestamp", .jnum 5500),
              ("vectorClock", .jobj [("u2", .jnum 1)]),
              ("propertyTimestamps", .jobj [("x", .jnum 5500)])])).1.hadConflict =
      some true :=
  (claim_C8_conflict_merge
    (storeEvent initialStore 5000 "u1" "SHAPE_CREATED" (some "S1")
      (.jobj [("type", .jstr "rectangle"),
              ("properties", .jobj [("x", .jnum 1)])])).2
    6000 "u2" "SHAPE_EDITED" "S1"
    (.jobj [("properties", .jobj [("x", .jnum 2)]),
            ("timestamp", .jnum 5500),
            ("vectorClock", .jobj [("u2", .jnum 1)]),
            ("propertyTimestamps", .jobj [("x", .jnum 5500)])])
    ⟨"rectangle", [("x", .jnum 1)], 0, false, 5000⟩
    (by decide) rfl rfl (by decide)).1

/-- C8 counterexample to the claim as stated: a shape update without a
vector clock arriving for an existing shape row updated 500 ms inside
the one-second window of its declared base timestamp is stored raw with
hadConflict = false — the claim's trigger condition is not sufficient
without the vector-clock requirement. -/
theorem claim_C8_counterexample :
    (getShape
      (storeEvent initialStore 5000 "u1" "SHAPE_CREATED" (some "S1")
        (.jobj [("type", .jstr "rectangle"),
                ("properties", .jobj [("x", .jnum 1)])])).2.shapes
      "S1").map ShapeRow.updated_at = some 5000 ∧
    clientBaseTimestamp (.jobj [("properties", .jobj [("x", .jnum 2)]),
        ("timestamp", .jnum 5500)]) = 5500 ∧
    (storeEvent
      (storeEvent initialStore 5000 "u1" "SHAPE_CREATED" (some "S1")
        (.jobj [("type", .jstr "rectangle"),
                ("properties", .jobj [("x", .jnum 1)])])).2
      6000 "u2" "SHAPE_EDITED" (some "S1")
      (.jobj [("properties", .jobj [("x", .jnum 2)]),
              ("timestamp", .jnum 5500)])).1.hadConflict = some false ∧
    (storeEvent
      (storeEvent initialStore 5000 "u1" "SHAPE_CREATED" (some "S1")
        (.jobj [("type", .jstr "rectangle"),
                ("properties", .jobj [("x", .jnum 1)])])).2
      6000 "u2" "SHAPE_EDITED" (some "S1")
      (.jobj [("properties", .jobj [("x", .jnum 2)]),
              ("timestamp", .jnum 5500)])).1.payload =
      .jobj [("properties", .jobj [("x", .jnum 2)]), ("timestamp", .jnum 5500)] :=
  ⟨rfl, rfl, rfl, rfl⟩

/-! ### Claim C7: fan-out of a stored shape event -/

theorem filter_map_pair_self (ws : List Nat) (x : Nat) (b : Msg) :
    ((ws.filter (fun v => v != x)).map (fun v => (v, b))).filter
      (fun s => s.1 == x) = [] := by
  induction ws with
  | nil => rfl
  | cons a rest ih =>
      by_cases hax : a = x
      · subst hax
        simp only [List.filter_cons, bne_self_eq_false]
        exact ih
      · simp only [List.filter_cons]
        rw [if_pos (by simp [bne, hax]), List.map_cons, List.filter_cons]
        rw [if_neg (by simp [hax])]
        exact ih

theorem filter_map_pair_not_mem (ws : List Nat) (x w : Nat) (b : Msg)
    (hw : w ∉ ws) :
    ((ws.filter (fun v => v != x)).map (fun v => (v, b))).filter
      (fun s => s.1 == w) = [] := by
  induction ws with
  | nil => rfl
  | cons a rest ih =>
      simp only [List.mem_cons, not_or] at hw
      by_cases hax : a = x
      · subst hax
        simp only [List.filter_cons, bne_self_eq_false]
        exact ih hw.2
      · simp only [List.filter_cons]
        rw [if_pos (by simp [bne, hax]), List.map_cons, List.filter_cons]
        rw [if_neg (by simp; exact fun hh => hw.1 hh.symm)]
        exact ih hw.2

theorem filter_map_pair_mem (ws : List Nat) (x w : Nat) (b : Msg)
    (hnd : ws.Nodup) (hmem : w ∈ ws) (hwx : w ≠ x) :
    ((ws.filter (fun v => v != x)).map (fun v => (v, b))).filter
      (fun s => s.1 == w) = [(w, b)] := by
  induction ws with
  | nil => cases hmem
  | cons a rest ih =>
      rw [List.nodup_cons] at hnd
      rcases List.mem_cons.mp hmem with rfl | hmem2
      · simp only [List.filter_cons]
        rw [if_pos (by simp [bne, hwx]), List.map_cons, List.filter_cons]
        rw [if_pos (by simp)]
        rw [filter_map_pair_not_mem rest x w b hnd.1]
      · by_cases hax : a = x
        · subst hax
          simp only [List.filter_cons, bne_self_eq_false]
          exact ih hnd.2 hmem2
        · have haw : a ≠ w := fun hh => hnd.1 (hh ▸ hmem2)
          simp only [List.filter_cons]
          rw [if_pos (by simp [bne, hax]), List.map_cons, List.filter_cons]
          rw [if_neg (by simp [haw])]
          exact ih hnd.2 hmem2

theorem jsOr_storeEvent_payload (st : StoreState) (now : Int) (u et : String)
    (sid : Option String) (p : JVal) (hs : shouldStoreEvent et = true) :
    jsOr (some (storeEvent st now u et sid p).1.payload) p =
      (storeEvent st now u et sid p).1.payload := by
  rcases hdet : detectConflict st.shapes sid p with _ | c
  · have hp : (storeEvent st now u et sid p).1.payload = p := by
      simp [storeEvent, commitEvent, hs, hdet]
    rw [hp]
    simp [jsOr]
  · have hp : (storeEvent st now u et sid p).1.payload =
        resolveConflictServer c p := by
      simp [storeEvent, commitEvent, hs, hdet]
    rw [hp]
    simp [resolveConflictServer, jsOr, truthy]

/-- C7: when a joined session sends a storable SHAPE_EVENT, the sender
is sent exactly the EVENT_ACK carrying localEventId, eventId, version,
stored and hadConflict (and no broadcast copy), while every other
session attached to the canvas is sent exactly one SHAPE_EVENT message
carrying the possibly conflict-resolved payload and the new version. -/
theorem claim_C7_fanout (room : List Nat) (conns : List (Nat × ConnInfo))
    (store : StoreState) (now : Int) (sender : Nat) (ci : ConnInfo)
    (localEventId : Option String) (eventType : String)
    (shapeId : Option String) (payload : JVal)
    (hconn : connLookup conns sender = some ci)
    (hjoined : ci.joined = true)
    (hnodup : room.Nodup)
    (hstorable : shouldStoreEvent eventType = true) :
    (((handleShapeEvent ⟨room, conns, store⟩ now sender localEventId eventType
        shapeId payload).1.filter (fun s => s.1 == sender)).map Prod.snd =
      [Msg.eventAck localEventId
        (storeEvent store now ci.userId eventType shapeId payload).1.eventId
        (storeEvent store now ci.userId eventType shapeId payload).1.version
        true
        (storeEvent store now ci.userId eventType shapeId payload).1.hadConflict]) ∧
    (∀ w ∈ room, w ≠ sender →
      ((handleShapeEvent ⟨room, conns, store⟩ now sender localEventId eventType
          shapeId payload).1.filter (fun s => s.1 == w)).map Prod.snd =
        [Msg.shapeEventMsg
          (storeEvent store now ci.userId eventType shapeId payload).1.eventId
          eventType shapeId
          (storeEvent store now ci.userId eventType shapeId payload).1.payload
          ci.userId ci.username
          (storeEvent store now ci.userId eventType shapeId payload).1.version
          (some true) (jget payload "vectorClock")
          (jget payload "propertyTimestamps")]) := by
  have hstored : (storeEvent store now ci.userId eventType shapeId payload).1.stored
      = true := by
    simp [storeEvent, hstorable]
  have hsends : (handleShapeEvent ⟨room, conns, store⟩ now sender localEventId
      eventType shapeId payload).1 =
      (sender, Msg.eventAck localEventId
        (storeEvent store now ci.userId eventType shapeId payload).1.eventId
        (storeEvent store now ci.userId eventType shapeId payload).1.version
        (storeEvent store now ci.userId eventType shapeId payload).1.stored
        (storeEvent store now ci.userId eventType shapeId payload).1.hadConflict) ::
      (room.filter (fun w => w != sender)).map (fun w =>
        (w, Msg.shapeEventMsg
          (storeEvent store now ci.userId eventType shapeId payload).1.eventId
          eventType shapeId
          (storeEvent store now ci.userId eventType shapeId payload).1.payload
          ci.userId ci.username
          (storeEvent store now ci.userId eventType shapeId payload).1.version
          (some (storeEvent store now ci.userId eventType shapeId payload).1.stored)
          (jget payload "vectorClock") (jget payload "propertyTimestamps"))) := by
    rw [show handleShapeEvent ⟨room, conns, store⟩ now sender localEventId
        eventType shapeId payload =
      match connLookup conns sender with
      | none => ([], ⟨room, conns, store⟩)
      | some ci =>
        if ci.joined then
          ((sender, Msg.eventAck localEventId
            (storeEvent store now ci.userId eventType shapeId payload).1.eventId
            (storeEvent store now ci.userId eventType shapeId payload).1.version
            (storeEvent store now ci.userId eventType shapeId payload).1.stored
            (storeEvent store now ci.userId eventType shapeId payload).1.hadConflict) ::
          (room.filter (fun w => w != sender)).map (fun w =>
            (w, Msg.shapeEventMsg
              (storeEvent store now ci.userId eventType shapeId payload).1.eventId
              eventType shapeId
              (jsOr (some (storeEvent store now ci.userId eventType shapeId
                payload).1.payload) payload)
              ci.userId ci.username
              (storeEvent store now ci.userId eventType shapeId payload).1.version
              (some (storeEvent store now ci.userId eventType shapeId
                payload).1.stored)
              (jget payload "vectorClock") (jget payload "propertyTimestamps"))),
           ⟨room, conns,
            (storeEvent store now ci.userId eventType shapeId payload).2⟩)
        else ([(sender, .errorMsg "Not joined to any canvas")],
          ⟨room, conns, store⟩) from rfl]
    rw [hconn]
    simp only [hjoined, if_true]
    rw [jsOr_storeEvent_payload store now ci.userId eventType shapeId payload
      hstorable]
  constructor
  · rw [hsends, List.filter_cons, if_pos (by simp),
      filter_map_pair_self room sender, List.map_cons, List.map_nil, hstored]
  · intro w hw hwne
    rw [hsends, List.filter_cons, if_neg (by simp; exact fun hh => hwne hh.symm),
      filter_map_pair_mem room sender w _ hnodup hw hwne, List.map_cons,
      List.map_nil, hstored]

/-- Witness for C7: two sessions on one canvas; the joined sender's
SHAPE_CREATED yields exactly an ack for the sender and exactly one
broadcast for the peer. -/
theorem claim_C7_fanout_witness :
    ((handleShapeEvent ⟨[1, 2], [(1, ⟨"uA", "A", true⟩), (2, ⟨"uB", "B", true⟩)],
        initialStore⟩ 0 1 (some "L1") "SHAPE_CREATED" (some "S1")
        (.jobj [("type", .jstr "rectangle"), ("properties", .jobj [])])).1.filter
        (fun s => s.1 == 1)).map Prod.snd =
      [Msg.eventAck (some "L1")
        (storeEvent initialStore 0 "uA" "SHAPE_CREATED" (some "S1")
          (.jobj [("type", .jstr "rectangle"),
                  ("properties", .jobj [])])).1.eventId
        (storeEvent initialStore 0 "uA" "SHAPE_CREATED" (some "S1")
          (.jobj [("type", .jstr "rectangle"),
                  ("properties", .jobj [])])).1.version
        true
        (storeEvent initialStore 0 "uA" "SHAPE_CREATED" (some "S1")
          (.jobj [("type", .jstr "rectangle"),
                  ("properties", .jobj [])])).1.hadConflict] :=
  (claim_C7_fanout [1, 2] [(1, ⟨"uA", "A", true⟩), (2, ⟨"uB", "B", true⟩)]
    initialStore 0 1 ⟨"uA", "A", true⟩ (some "L1") "SHAPE_CREATED" (some "S1")
    (.jobj [("type", .jstr "rectangle"), ("properties", .jobj [])])
    rfl rfl (by decide) (by decide)).1

/-! ### Claim C10: BATCH_SYNC_RESULT acknowledges by first match -/

theorem storeBatchStep_stored_fields (now : Int)
    (acc : (List BatchStored × List BatchConflict) × StoreState) (e : BatchItem)
    (hs : shouldStoreEvent e.eventType = true) :
    (storeBatchStep now acc e).1.1.map (fun ev => (ev.shapeId, ev.eventType)) =
      acc.1.1.map (fun ev => (ev.shapeId, ev.eventType)) ++
        [(e.shapeId, e.eventType)] := by
  simp [storeBatchStep, hs]

theorem batch_stored_fields (now : Int) (evs : List BatchItem)
    (acc : (List BatchStored × List BatchConflict) × StoreState)
    (hall : ∀ e ∈ evs, shouldStoreEvent e.eventType = true) :
    (evs.foldl (storeBatchStep now) acc).1.1.map
        (fun ev => (ev.shapeId, ev.eventType)) =
      acc.1.1.map (fun ev => (ev.shapeId, ev.eventType)) ++
        evs.map (fun e => (e.shapeId, e.eventType)) := by
  induction evs generalizing acc with
  | nil => simp
  | cons e rest ih =>
      rw [List.foldl_cons, ih _ (fun x hx => hall x (List.mem_cons_of_mem _ hx)),
        storeBatchStep_stored_fields now acc e (hall e (List.mem_cons_self _ _)),
        List.map_cons, List.append_assoc, List.singleton_append]

/-- C10: the BATCH_SYNC_RESULT entry for each stored event takes its
localEventId from the first submitted event whose shapeId and eventType
match the stored event — not from the event that produced it — so in a
batch of two SHAPE_EDITED events on the same shape both entries report
the first event's localEventId and the second is never acknowledged. -/
theorem claim_C10_batch_ack_first_match (st : WSState) (now : Int) (sender : Nat)
    (ci : ConnInfo) (events : List SubmittedEvent) (lastKnownVersion : Nat)
    (hconn : connLookup st.conns sender = some ci)
    (hjoined : ci.joined = true)
    (hall : ∀ e ∈ events, shouldStoreEvent e.eventType = true) :
    (∃ rest,
      (handleBatchSync st now sender events lastKnownVersion).1 =
        (sender, Msg.batchSyncResult true
          ((storeBatchEvents st.store now (events.map (fun e =>
              ⟨ci.userId, e.eventType, e.shapeId, e.payload⟩))).1.1.map
            (fun e =>
              { localEventId :=
                  (events.find? (fun le =>
                    le.shapeId == e.shapeId &&
                      le.eventType == e.eventType)).bind
                    (fun le => le.localEventId),
                eventId := e.eventId, version := e.version,
                hadConflict := e.hadConflict : ResultEntry }))
          (eventsSince st.store lastKnownVersion)
          (getCanvasState (storeBatchEvents st.store now (events.map (fun e =>
            ⟨ci.userId, e.eventType, e.shapeId, e.payload⟩))).2)
          ((storeBatchEvents st.store now (events.map (fun e =>
            ⟨ci.userId, e.eventType, e.shapeId, e.payload⟩))).1.2)) :: rest ∧
      ((storeBatchEvents st.store now (events.map (fun e =>
          ⟨ci.userId, e.eventType, e.shapeId, e.payload⟩))).1.1.map
        (fun e =>
          (events.find? (fun le =>
            le.shapeId == e.shapeId && le.eventType == e.eventType)).bind
            (fun le => le.localEventId))) =
        events.map (fun sub =>
          (events.find? (fun le =>
            le.shapeId == sub.shapeId && le.eventType == sub.eventType)).bind
            (fun le => le.localEventId))) ∧
    (∃ entries2 missed2 cstate2 conflicts2 rest2,
      (handleBatchSync ⟨[1], [(1, ⟨"u", "U", true⟩)], initialStore⟩ 7 1
        [⟨some "L1", "SHAPE_EDITED", some "S1",
            .jobj [("properties", .jobj [("a", .jnum 1)])]⟩,
         ⟨some "L2", "SHAPE_EDITED", some "S1",
            .jobj [("properties", .jobj [("a", .jnum 2)])]⟩] 0).1 =
        (1, Msg.batchSyncResult true entries2 missed2 cstate2 conflicts2) ::
          rest2 ∧
      entries2.map ResultEntry.localEventId = [some "L1", some "L1"] ∧
      ∀ en ∈ entries2, en.localEventId ≠ some "L2") := by
  constructor
  · refine ⟨?_, ?_, ?_⟩
    · exact (storeBatchEvents st.store now (events.map (fun e =>
        ⟨ci.userId, e.eventType, e.shapeId, e.payload⟩))).1.1.flatMap
          (fun ev => (st.room.filter (fun w => w != sender)).map (fun w =>
            (w, Msg.shapeEventMsg (some ev.eventId) ev.eventType ev.shapeId
              ev.payload ci.userId ci.username ev.version none
              (jget ev.payload "vectorClock")
              (jget ev.payload "propertyTimestamps"))))
    · simp only [handleBatchSync, hconn, hjoined, if_true]
    · have h1 : (storeBatchEvents st.store now (events.map (fun e =>
          ⟨ci.userId, e.eventType, e.shapeId, e.payload⟩))).1.1.map
          (fun ev => (ev.shapeId, ev.eventType)) =
          events.map (fun e => (e.shapeId, e.eventType)) := by
        rw [storeBatchEvents, batch_stored_fields _ _ _ (fun x hx => ?_)]
        · rw [List.map_map]
          simp
        · obtain ⟨e0, he0, rfl⟩ := List.mem_map.mp hx
          exact hall e0 he0
      have h2 : (storeBatchEvents st.store now (events.map (fun e =>
          ⟨ci.userId, e.eventType, e.shapeId, e.payload⟩))).1.1.map
          (fun e =>
            (events.find? (fun le =>
              le.shapeId == e.shapeId && le.eventType == e.eventType)).bind
              (fun le => le.localEventId)) =
          ((storeBatchEvents st.store now (events.map (fun e =>
            ⟨ci.userId, e.eventType, e.shapeId, e.payload⟩))).1.1.map
            (fun ev => (ev.shapeId, ev.eventType))).map
            (fun pr =>
              (events.find? (fun le =>
                le.shapeId == pr.1 && le.eventType == pr.2)).bind
                (fun le => le.localEventId)) := by
        rw [List.map_map]
        rfl
      rw [h2, h1, List.map_map]
      rfl
  · refine ⟨[⟨some "L1", 0, 1, false⟩, ⟨some "L1", 1, 2, false⟩], [],
      ⟨[], 2⟩, [], [], rfl, rfl, ?_⟩
    decide

/-- Witness for C10 at the two-event batch of its statement. -/
theorem claim_C10_batch_ack_first_match_witness :
    ∃ entries2 missed2 cstate2 conflicts2 rest2,
      (handleBatchSync ⟨[1], [(1, ⟨"u", "U", true⟩)], initialStore⟩ 7 1
        [⟨some "L1", "SHAPE_EDITED", some "S1",
            .jobj [("properties", .jobj [("a", .jnum 1)])]⟩,
         ⟨some "L2", "SHAPE_EDITED", some "S1",
            .jobj [("properties", .jobj [("a", .jnum 2)])]⟩] 0).1 =
        (1, Msg.batchSyncResult true entries2 missed2 cstate2 conflicts2) ::
          rest2 ∧
      entries2.map ResultEntry.localEventId = [some "L1", some "L1"] ∧
      ∀ en ∈ entries2, en.localEventId ≠ some "L2" :=
  (claim_C10_batch_ack_first_match ⟨[1], [(1, ⟨"u", "U", true⟩)], initialStore⟩ 7 1
    ⟨"u", "U", true⟩
    [⟨some "L1", "SHAPE_EDITED", some "S1",
        .jobj [("properties", .jobj [("a", .jnum 1)])]⟩,
     ⟨some "L2", "SHAPE_EDITED", some "S1",
        .jobj [("properties", .jobj [("a", .jnum 2)])]⟩] 0 rfl rfl
    (by
      intro e he
      simp only [List.mem_cons, List.not_mem_nil, or_false] at he
      rcases he with rfl | rfl <;> decide)).2

/-! ### Claim C1: lemmas relating the shapes table and the spec fold -/

theorem getShape_mem (shapes : Shapes) (sid : String) (row : ShapeRow)
    (h : getShape shapes sid = some row) : (sid, row) ∈ shapes := by
  induction shapes with
  | nil => simp [getShape] at h
  | cons kv rest ih =>
      obtain ⟨k1, r1⟩ := kv
      by_cases hk : k1 = sid
      · subst hk
        rw [show getShape ((k1, r1) :: rest) k1 = some r1 from by
          simp [getShape]] at h
        obtain rfl := Option.some.inj h
        exact List.mem_cons_self _ _
      · rw [show getShape ((k1, r1) :: rest) sid = getShape rest sid from by
          simp [getShape, hk]] at h
        exact List.mem_cons_of_mem _ (ih h)

theorem erase_getShape (shapes : Shapes) (sid : String) :
    specGet (eraseShapes shapes) sid = (getShape shapes sid).map specOfRow := by
  induction shapes with
  | nil => rfl
  | cons kv rest ih =>
      obtain ⟨k1, r1⟩ := kv
      by_cases hk : k1 = sid <;>
        simp [eraseShapes, specGet, getShape, hk] at ih ⊢ <;> exact ih

theorem erase_setShape (shapes : Shapes) (sid : String) (row : ShapeRow) :
    eraseShapes (setShape shapes sid row) =
      specSet (eraseShapes shapes) sid (specOfRow row) := by
  induction shapes with
  | nil => rfl
  | cons kv rest ih =>
      obtain ⟨k1, r1⟩ := kv
      by_cases hk : k1 = sid <;>
        simp [eraseShapes, setShape, specSet, hk] at ih ⊢ <;> exact ih

theorem specSet_not_mem (s : SpecShapes) (sid : String) (row : SpecRow)
    (h : specGet s sid = none) : specSet s sid row = s ++ [(sid, row)] := by
  induction s with
  | nil => rfl
  | cons kv rest ih =>
      obtain ⟨k1, r1⟩ := kv
      by_cases hk : k1 = sid
      · subst hk
        simp [specGet] at h
      · simp [specGet, hk] at h
        simp [specSet, hk, ih h]

theorem erase_updateShape (shapes : Shapes) (sid : String)
    (f : ShapeRow → ShapeRow) (g : SpecRow → SpecRow)
    (hfg : ∀ row, specOfRow (f row) = g (specOfRow row)) :
    eraseShapes (updateShape shapes sid f) =
      specUpdate (eraseShapes shapes) (some sid) g := by
  rw [eraseShapes, updateShape, specUpdate, eraseShapes, List.map_map,
    List.map_map]
  refine List.map_congr_left (fun kv _ => ?_)
  by_cases hk : kv.1 = sid <;> simp [hk, hfg]

theorem erase_updateShapeO (shapes : Shapes) (sid : Option String)
    (f : ShapeRow → ShapeRow) (g : SpecRow → SpecRow)
    (hfg : ∀ row, specOfRow (f row) = g (specOfRow row)) :
    eraseShapes (updateShapeO shapes sid f) =
      specUpdate (eraseShapes shapes) sid g := by
  cases sid with
  | none => rfl
  | some s => exact erase_updateShape shapes s f g hfg

theorem keysOf_jset_subset (m : Pmap) (k : String) (v : JVal) (k' : String)
    (h : k' ∈ keysOf (jset m k v)) : k' = k ∨ k' ∈ keysOf m := by
  induction m with
  | nil =>
      simp [jset, keysOf] at h
      exact Or.inl h
  | cons kv rest ih =>
      obtain ⟨k1, v1⟩ := kv
      by_cases h1 : k1 = k
      · subst h1
        simp only [jset, if_pos rfl, keysOf_cons] at h
        rcases List.mem_cons.mp h with h | h
        · exact Or.inl h
        · exact Or.inr (by rw [keysOf_cons]; exact List.mem_cons_of_mem _ h)
      · simp only [jset, if_neg h1, keysOf_cons] at h
        rw [keysOf_cons]
        rcases List.mem_cons.mp h with h | h
        · exact Or.inr (List.mem_cons.mpr (Or.inl h))
        · rcases ih h with h' | h'
          · exact Or.inl h'
          · exact Or.inr (List.mem_cons.mpr (Or.inr h'))

theorem keysOf_mergeProperties_not_mem (sp cp sts cts : Pmap) (k : String)
    (hsp : k ∉ keysOf sp) (hcp : k ∉ keysOf cp) :
    k ∉ keysOf (mergeProperties sp cp sts cts) := by
  rw [mergeProperties]
  induction cp generalizing sp with
  | nil => simpa using hsp
  | cons kv rest ih =>
      obtain ⟨k1, v1⟩ := kv
      rw [keysOf_cons] at hcp
      simp only [List.mem_cons, not_or] at hcp
      rw [List.foldl_cons]
      by_cases hc : asIntD (plookup cts k1) > asIntD (plookup sts k1)
      · rw [if_pos hc]
        refine ih _ (fun hmem => ?_) hcp.2
        rcases keysOf_jset_subset _ _ _ _ hmem with h | h
        · exact hcp.1 h
        · exact hsp h
      · rw [if_neg hc]
        exact ih _ hsp hcp.2

theorem jget_eq_plookup_asObj (p : JVal) (key : String) :
    jget p key = plookup (asObj p) key := by
  cases p <;> rfl

theorem plookup_jset_jset_other (fs : Pmap) (a b key : String) (va vb : JVal)
    (h1 : key ≠ a) (h2 : key ≠ b) :
    plookup (jset (jset fs a va) b vb) key = plookup fs key := by
  rw [plookup_jset, if_neg (fun hh => h2 hh.symm), plookup_jset,
    if_neg (fun hh => h1 hh.symm)]

theorem plookup_jset_jset_mid (fs : Pmap) (a b : String) (va vb : JVal)
    (h : b ≠ a) :
    plookup (jset (jset fs a va) b vb) a = some va := by
  rw [plookup_jset, if_neg h, plookup_jset, if_pos rfl]

theorem jget_resolved_ne (c : Conflict) (p : JVal) (key : String)
    (h1 : key ≠ "properties") (h2 : key ≠ "conflictResolved") :
    jget (resolveConflictServer c p) key = jget p key := by
  rw [jget_eq_plookup_asObj p key]
  show plookup (jset (jset (asObj p) "properties" _) "conflictResolved" _)
    key = plookup (asObj p) key
  exact plookup_jset_jset_other _ _ _ _ _ _ h1 h2

theorem jget_resolved_properties (c : Conflict) (p : JVal) :
    jget (resolveConflictServer c p) "properties" =
      some (.jobj (mergeProperties c.serverProperties
        (asObj (jsOr3 (jget p "properties") (jget p "position") p)) []
        (asObj (jsOr (jget p "propertyTimestamps") (.jobj []))))) := by
  show plookup (jset (jset (asObj p) "properties" _) "conflictResolved" _)
    "properties" = _
  exact plookup_jset_jset_mid _ _ _ _ _ (by decide)

theorem detectConflict_some (shapes : Shapes) (sid : Option String) (p : JVal)
    (c : Conflict) (h : detectConflict shapes sid p = some c) :
    ∃ s row, sid = some s ∧ getShape shapes s = some row ∧
      c = ⟨s, row.properties, row.updated_at⟩ := by
  cases sid with
  | none => simp [detectConflict] at h
  | some s =>
      rcases hrow : getShape shapes s with _ | row
      · simp [detectConflict, hrow] at h
      · refine ⟨s, row, rfl, hrow, ?_⟩
        simp only [detectConflict, hrow] at h
        split at h
        · exact (Option.some.inj h).symm
        · exact absurd h (by simp)

theorem erase_apply_audit (shapes : Shapes) (now : Int) (eid : Nat) (u : String)
    (ver : Nat) (sid : Option String) (p : JVal) (et : String)
    (h : et = "POINTER_DOWN" ∨ et = "DRAG_START" ∨ et = "USER_CONNECTED" ∨
      et = "USER_DISCONNECTED") :
    eraseShapes (applyEvent shapes now et sid p) =
      specProjectFixed (eraseShapes shapes) ⟨eid, sid, u, et, p, ver⟩ := by
  rcases h with rfl | rfl | rfl | rfl <;> rfl

theorem erase_apply_deleted (shapes : Shapes) (now : Int) (eid : Nat)
    (u : String) (ver : Nat) (sid : Option String) (p : JVal) :
    eraseShapes (applyEvent shapes now "SHAPE_DELETED" sid p) =
      specProjectFixed (eraseShapes shapes) ⟨eid, sid, u, "SHAPE_DELETED", p, ver⟩ := by
  have hL : applyEvent shapes now "SHAPE_DELETED" sid p =
      updateShapeO shapes sid (fun row =>
        { row with deleted := true, updated_at := now }) := rfl
  have hR : specProjectFixed (eraseShapes shapes)
      ⟨eid, sid, u, "SHAPE_DELETED", p, ver⟩ =
      specUpdate (eraseShapes shapes) sid (fun row =>
        { row with deleted := true }) := rfl
  rw [hL, hR]
  exact erase_updateShapeO _ _ _ _ (fun row => rfl)

theorem erase_apply_edited (shapes : Shapes) (now : Int) (eid : Nat)
    (u : String) (ver : Nat) (sid : Option String) (p : JVal) (ps : Pmap)
    (hp : jget p "properties" = some (.jobj ps)) :
    eraseShapes (applyEvent shapes now "SHAPE_EDITED" sid p) =
      specProjectFixed (eraseShapes shapes) ⟨eid, sid, u, "SHAPE_EDITED", p, ver⟩ := by
  have hL : applyEvent shapes now "SHAPE_EDITED" sid p =
      updateShapeO shapes sid (fun row =>
        { row with
            properties := pmerge row.properties
              (asObj (jsOr (jget p "properties") p)),
            updated_at := now }) := rfl
  have hR : specProjectFixed (eraseShapes shapes)
      ⟨eid, sid, u, "SHAPE_EDITED", p, ver⟩ =
      specUpdate (eraseShapes shapes) sid (fun row =>
        { row with
            properties := pmerge row.properties
              (asObj ((jget p "properties").getD .jnull)) }) := rfl
  have h1 : asObj (jsOr (jget p "properties") p) = ps := by rw [hp]; rfl
  have h2 : asObj ((jget p "properties").getD .jnull) = ps := by rw [hp]; rfl
  rw [hL, hR, h1, h2]
  exact erase_updateShapeO _ _ _ _ (fun row => rfl)

theorem erase_apply_moved (shapes : Shapes) (now : Int) (eid : Nat)
    (u : String) (ver : Nat) (sid : Option String) (p : JVal) (pos : Pmap)
    (hp : jget p "position" = some (.jobj pos)) :
    eraseShapes (applyEvent shapes now "SHAPE_MOVED" sid p) =
      specProjectFixed (eraseShapes shapes) ⟨eid, sid, u, "SHAPE_MOVED", p, ver⟩ := by
  have hL : applyEvent shapes now "SHAPE_MOVED" sid p =
      updateShapeO shapes sid (fun row =>
        { row with
            properties := psetSorted (psetSorted row.properties "x"
              ((plookup (asObj (jsOr (jget p "position") p)) "x").getD .jnull))
              "y" ((plookup (asObj (jsOr (jget p "position") p)) "y").getD .jnull),
            updated_at := now }) := rfl
  have hR : specProjectFixed (eraseShapes shapes)
      ⟨eid, sid, u, "SHAPE_MOVED", p, ver⟩ =
      specUpdate (eraseShapes shapes) sid (fun row =>
        { row with
            properties := psetSorted (psetSorted row.properties "x"
              ((plookup (asObj ((jget p "position").getD .jnull)) "x").getD .jnull))
              "y" ((plookup (asObj ((jget p "position").getD .jnull)) "y").getD
                .jnull) }) := rfl
  have h1 : asObj (jsOr (jget p "position") p) = pos := by rw [hp]; rfl
  have h2 : asObj ((jget p "position").getD .jnull) = pos := by rw [hp]; rfl
  rw [hL, hR, h1, h2]
  exact erase_updateShapeO _ _ _ _ (fun row => rfl)

theorem erase_apply_dragend (shapes : Shapes) (now : Int) (eid : Nat)
    (u : String) (ver : Nat) (sid : Option String) (p : JVal)
    (hp : jget p "endPosition" = none ∨
      ∃ ep, jget p "endPosition" = some (.jobj ep)) :
    eraseShapes (applyEvent shapes now "DRAG_END" sid p) =
      specProjectFixed (eraseShapes shapes) ⟨eid, sid, u, "DRAG_END", p, ver⟩ := by
  have hL : applyEvent shapes now "DRAG_END" sid p =
      (if truthyO (jget p "endPosition") then
        updateShapeO shapes sid (fun row =>
          { row with
              properties := psetSorted (psetSorted row.properties "x"
                ((plookup (asObj ((jget p "endPosition").getD .jnull)) "x").getD
                  .jnull))
                "y" ((plookup (asObj ((jget p "endPosition").getD .jnull))
                  "y").getD .jnull),
              updated_at := now })
      else shapes) := rfl
  have hR : specProjectFixed (eraseShapes shapes)
      ⟨eid, sid, u, "DRAG_END", p, ver⟩ =
      (if (jget p "endPosition").isSome then
        specUpdate (eraseShapes shapes) sid (fun row =>
          { row with
              properties := psetSorted (psetSorted row.properties "x"
                ((plookup (asObj ((jget p "endPosition").getD .jnull)) "x").getD
                  .jnull))
                "y" ((plookup (asObj ((jget p "endPosition").getD .jnull))
                  "y").getD .jnull) })
      else eraseShapes shapes) := rfl
  rcases hp with hp | ⟨ep, hp⟩
  · rw [hL, hR, hp]
    simp [truthyO]
  · rw [hL, hR, hp]
    simp only [truthyO, truthy, Option.isSome_some, if_true]
    exact erase_updateShapeO _ _ _ _ (fun row => rfl)

theorem erase_apply_created (shapes : Shapes) (now : Int) (eid : Nat)
    (u : String) (ver : Nat) (s : String) (p : JVal) (ps : Pmap) (t : String)
    (hprops : jget p "properties" = some (.jobj ps))
    (htype : jget p "type" = some (.jstr t)) (ht : t ≠ "")
    (hz : jget p "zIndex" = none ∨ ∃ n, jget p "zIndex" = some (.jnum n))
    (hzps : plookup ps "zIndex" = none) :
    eraseShapes (applyEvent shapes now "SHAPE_CREATED" (some s) p) =
      specProjectFixed (eraseShapes shapes)
        ⟨eid, some s, u, "SHAPE_CREATED", p, ver⟩ := by
  have hobj : asObj (jsOr (jget p "properties") p) = ps := by rw [hprops]; rfl
  have hL : applyEvent shapes now "SHAPE_CREATED" (some s) p =
      (match getShape shapes s with
       | none => shapes ++ [(s,
          ⟨asStr (jsOr (jget p "type")
              (jsOr (plookup (asObj (jsOr (jget p "properties") p)) "type")
                .jnull)),
            pnorm (asObj (jsOr (jget p "properties") p)),
            asInt (jsOr3 (jget p "zIndex")
              (plookup (asObj (jsOr (jget p "properties") p)) "zIndex")
              (.jnum 0)),
            false, now⟩)]
       | some old => setShape shapes s
          { old with
              properties := pnorm (asObj (jsOr (jget p "properties") p)),
              z_index := asInt (jsOr3 (jget p "zIndex")
                (plookup (asObj (jsOr (jget p "properties") p)) "zIndex")
                (.jnum 0)),
              deleted := false, updated_at := now }) := rfl
  have hR : specProjectFixed (eraseShapes shapes)
      ⟨eid, some s, u, "SHAPE_CREATED", p, ver⟩ =
      (match specGet (eraseShapes shapes) s with
       | none => specSet (eraseShapes shapes) s (specCreatedRow p)
       | some old => specSet (eraseShapes shapes) s
          { specCreatedRow p with typ := old.typ }) := rfl
  have htyp : asStr (jsOr (jget p "type") (jsOr (plookup ps "type") .jnull)) =
      t := by
    rw [htype]
    simp [jsOr, truthy, ht, asStr]
  have hzv : asInt (jsOr3 (jget p "zIndex") (plookup ps "zIndex") (.jnum 0)) =
      asInt ((jget p "zIndex").getD (.jnum 0)) := by
    rcases hz with hz | ⟨n, hz⟩
    · rw [hz, hzps]
      rfl
    · rw [hz]
      by_cases hn : n = 0
      · subst hn
        rw [hzps]
        simp [jsOr3, jsOr, truthy, asInt]
      · simp [jsOr3, truthy, hn, asInt]
  have hrowspec : specCreatedRow p =
      ⟨t, pnorm ps, asInt (jsOr3 (jget p "zIndex") (plookup ps "zIndex")
        (.jnum 0)), false⟩ := by
    rw [specCreatedRow, hzv, hprops, htype]
    simp [asStr, asObj]
  rw [hL, hR, hobj, htyp, erase_getShape]
  rcases hrow : getShape shapes s with _ | old
  · simp only [Option.map_none']
    rw [specSet_not_mem _ _ _ (by rw [erase_getShape, hrow]; rfl), hrowspec]
    rw [eraseShapes, List.map_append, ← eraseShapes]
    rfl
  · simp only [Option.map_some']
    rw [erase_setShape, hrowspec]
    rfl

theorem mem_setShape (shapes : Shapes) (sid : String) (row : ShapeRow)
    (kv : String × ShapeRow) (h : kv ∈ setShape shapes sid row) :
    kv = (sid, row) ∨ kv ∈ shapes := by
  induction shapes with
  | nil =>
      simp [setShape] at h
      exact Or.inl h
  | cons kv1 rest ih =>
      obtain ⟨k1, r1⟩ := kv1
      by_cases hk : k1 = sid
      · subst hk
        simp only [setShape, if_pos rfl] at h
        rcases List.mem_cons.mp h with h | h
        · exact Or.inl h
        · exact Or.inr (List.mem_cons_of_mem _ h)
      · simp only [setShape, if_neg hk] at h
        rcases List.mem_cons.mp h with h | h
        · exact Or.inr (List.mem_cons.mpr (Or.inl h))
        · rcases ih h with h' | h'
          · exact Or.inl h'
          · exact Or.inr (List.mem_cons.mpr (Or.inr h'))

theorem shapesInv_updateShapeO (shapes : Shapes) (sid : Option String)
    (f : ShapeRow → ShapeRow)
    (hf : ∀ row, "zIndex" ∉ keysOf row.properties →
      "zIndex" ∉ keysOf (f row).properties)
    (hinv : ∀ kv ∈ shapes, "zIndex" ∉ keysOf kv.2.properties) :
    ∀ kv ∈ updateShapeO shapes sid f, "zIndex" ∉ keysOf kv.2.properties := by
  cases sid with
  | none => exact hinv
  | some s =>
      intro kv hkv
      rw [show updateShapeO shapes (some s) f = updateShape shapes s f from rfl,
        updateShape] at hkv
      obtain ⟨kv0, hkv0, heq⟩ := List.mem_map.mp hkv
      by_cases hks : kv0.1 = s
      · rw [if_pos hks] at heq
        subst heq
        exact hf _ (hinv kv0 hkv0)
      · rw [if_neg hks] at heq
        subst heq
        exact hinv kv0 hkv0

theorem resolved_props_zfree (shapes : Shapes) (sid : Option String) (p : JVal)
    (c : Conflict) (ps : Pmap)
    (hdet : detectConflict shapes sid p = some c)
    (hinv : ∀ kv ∈ shapes, "zIndex" ∉ keysOf kv.2.properties)
    (hp : jget p "properties" = some (.jobj ps))
    (hzps : plookup ps "zIndex" = none) :
    ∃ ps2, jget (resolveConflictServer c p) "properties" = some (.jobj ps2) ∧
      plookup ps2 "zIndex" = none := by
  obtain ⟨s, row, rfl, hrow, rfl⟩ := detectConflict_some _ _ _ _ hdet
  refine ⟨_, jget_resolved_properties _ _, ?_⟩
  rw [plookup_eq_none_iff]
  have hclient : asObj (jsOr3 (jget p "properties") (jget p "position") p) =
      ps := by
    rw [hp]
    rfl
  rw [hclient]
  refine keysOf_mergeProperties_not_mem _ _ _ _ _ ?_ ?_
  · exact hinv (s, row) (getShape_mem _ _ _ hrow)
  · exact (plookup_eq_none_iff ps "zIndex").mp hzps

theorem wf_created_destruct (sid : Option String) (p : JVal)
    (h : wfPayload "SHAPE_CREATED" sid p = true) :
    (∃ s, sid = some s) ∧
    (∃ ps, jget p "properties" = some (.jobj ps) ∧
      plookup ps "zIndex" = none) ∧
    (∃ t, jget p "type" = some (.jstr t) ∧ t ≠ "") ∧
    (jget p "zIndex" = none ∨ ∃ n, jget p "zIndex" = some (.jnum n)) := by
  simp only [wfPayload, Bool.and_eq_true] at h
  obtain ⟨⟨⟨hsid, h1⟩, h2⟩, h3⟩ := h
  refine ⟨?_, ?_, ?_, ?_⟩
  · rcases sid with _ | s
    · simp at hsid
    · exact ⟨s, rfl⟩
  · rcases hjp : jget p "properties" with _ | v
    · rw [hjp] at h1
      simp at h1
    · rcases v with _ | b | n | st | ps <;> rw [hjp] at h1 <;> simp at h1
      exact ⟨ps, rfl, by simpa [Option.isNone] using h1⟩
  · rcases hjt : jget p "type" with _ | v
    · rw [hjt] at h2
      simp at h2
    · rcases v with _ | b | n | st | fs <;> rw [hjt] at h2 <;> simp at h2
      exact ⟨st, rfl, h2⟩
  · rcases hjz : jget p "zIndex" with _ | v
    · exact Or.inl rfl
    · rcases v with _ | b | n | st | fs <;> rw [hjz] at h3 <;> simp at h3
      exact Or.inr ⟨n, rfl⟩

theorem wf_edited_destruct (sid : Option String) (p : JVal)
    (h : wfPayload "SHAPE_EDITED" sid p = true) :
    ∃ ps, jget p "properties" = some (.jobj ps) ∧
      plookup ps "zIndex" = none := by
  simp only [wfPayload] at h
  rcases hjp : jget p "properties" with _ | v
  · rw [hjp] at h
    simp at h
  · rcases v with _ | b | n | st | ps <;> rw [hjp] at h <;> simp at h
    exact ⟨ps, rfl, by simpa [Option.isNone] using h⟩

theorem wf_moved_destruct (sid : Option String) (p : JVal)
    (h : wfPayload "SHAPE_MOVED" sid p = true) :
    ∃ pos, jget p "position" = some (.jobj pos) ∧
      (plookup pos "x").isSome = true ∧ (plookup pos "y").isSome = true := by
  simp only [wfPayload] at h
  rcases hjp : jget p "position" with _ | v
  · rw [hjp] at h
    simp at h
  · rcases v with _ | b | n | st | pos <;> rw [hjp] at h <;> simp at h
    exact ⟨pos, rfl, by simp [h.1], by simp [h.2]⟩

theorem wf_dragend_destruct (sid : Option String) (p : JVal)
    (h : wfPayload "DRAG_END" sid p = true) :
    jget p "endPosition" = none ∨
      ∃ ep, jget p "endPosition" = some (.jobj ep) ∧
        (plookup ep "x").isSome = true ∧ (plookup ep "y").isSome = true := by
  simp only [wfPayload] at h
  rcases hjp : jget p "endPosition" with _ | v
  · exact Or.inl rfl
  · rcases v with _ | b | n | st | ep <;> rw [hjp] at h <;> simp at h
    exact Or.inr ⟨ep, rfl, by simp [h.1], by simp [h.2]⟩

theorem zfree_set_xy (props : Pmap) (vx vy : JVal)
    (h : "zIndex" ∉ keysOf props) :
    "zIndex" ∉ keysOf (psetSorted (psetSorted props "x" vx) "y" vy) := by
  intro hmem
  rcases keysOf_psetSorted_subset _ _ _ _ hmem with h1 | h1
  · exact absurd h1 (by decide)
  · rcases keysOf_psetSorted_subset _ _ _ _ h1 with h2 | h2
    · exact absurd h2 (by decide)
    · exact h h2

theorem zfree_pnorm (ps : Pmap) (h : plookup ps "zIndex" = none) :
    "zIndex" ∉ keysOf (pnorm ps) := by
  rw [pnorm]
  exact keysOf_pmerge_not_mem [] ps "zIndex" (by simp [keysOf])
    ((plookup_eq_none_iff _ _).mp h)

/-- One storable event applied to the shapes table: the erased result is
the section 4.D.1 rule (amended for type-on-recreate) applied to the
erased table, and the no-zIndex-in-row-properties invariant is kept. -/
theorem apply_fold_inv (shapes : Shapes) (now : Int) (eid : Nat) (u : String)
    (ver : Nat) (et : String) (sid : Option String) (p2 : JVal)
    (hmem : et ∈ STORED_EVENT_TYPES)
    (hwf2 : wfPayload et sid p2 = true)
    (hinv : ∀ kv ∈ shapes, "zIndex" ∉ keysOf kv.2.properties) :
    eraseShapes (applyEvent shapes now et sid p2) =
      specProjectFixed (eraseShapes shapes) ⟨eid, sid, u, et, p2, ver⟩ ∧
    (∀ kv ∈ applyEvent shapes now et sid p2,
      "zIndex" ∉ keysOf kv.2.properties) := by
  fin_cases hmem
  · exact ⟨erase_apply_audit _ _ _ _ _ _ _ _ (Or.inr (Or.inr (Or.inl rfl))),
      hinv⟩
  · exact ⟨erase_apply_audit _ _ _ _ _ _ _ _ (Or.inr (Or.inr (Or.inr rfl))),
      hinv⟩
  · exact ⟨erase_apply_audit _ _ _ _ _ _ _ _ (Or.inl rfl), hinv⟩
  · exact ⟨erase_apply_audit _ _ _ _ _ _ _ _ (Or.inr (Or.inl rfl)), hinv⟩
  · -- DRAG_END
    have hp0 : jget p2 "endPosition" = none ∨
        ∃ ep, jget p2 "endPosition" = some (.jobj ep) := by
      rcases wf_dragend_destruct sid p2 hwf2 with h | ⟨ep, h, -, -⟩
      · exact Or.inl h
      · exact Or.inr ⟨ep, h⟩
    refine ⟨erase_apply_dragend _ _ _ _ _ _ _ hp0, ?_⟩
    have hL : applyEvent shapes now "DRAG_END" sid p2 =
        (if truthyO (jget p2 "endPosition") then
          updateShapeO shapes sid (fun row =>
            { row with
                properties := psetSorted (psetSorted row.properties "x"
                  ((plookup (asObj ((jget p2 "endPosition").getD .jnull))
                    "x").getD .jnull))
                  "y" ((plookup (asObj ((jget p2 "endPosition").getD .jnull))
                    "y").getD .jnull),
                updated_at := now })
        else shapes) := rfl
    rw [hL]
    by_cases hc : truthyO (jget p2 "endPosition") = true
    · rw [if_pos hc]
      exact shapesInv_updateShapeO _ _ _
        (fun row hz => zfree_set_xy _ _ _ hz) hinv
    · rw [if_neg hc]
      exact hinv
  · -- SHAPE_CREATED
    obtain ⟨⟨s, rfl⟩, ⟨ps, hprops, hzps⟩, ⟨t, htype, ht⟩, hz⟩ :=
      wf_created_destruct sid p2 hwf2
    refine ⟨erase_apply_created _ _ _ _ _ _ _ _ _ hprops htype ht hz hzps, ?_⟩
    have hobj : asObj (jsOr (jget p2 "properties") p2) = ps := by
      rw [hprops]
      rfl
    have hL : applyEvent shapes now "SHAPE_CREATED" (some s) p2 =
        (match getShape shapes s with
         | none => shapes ++ [(s,
            ⟨asStr (jsOr (jget p2 "type")
                (jsOr (plookup (asObj (jsOr (jget p2 "properties") p2)) "type")
                  .jnull)),
              pnorm (asObj (jsOr (jget p2 "properties") p2)),
              asInt (jsOr3 (jget p2 "zIndex")
                (plookup (asObj (jsOr (jget p2 "properties") p2)) "zIndex")
                (.jnum 0)),
              false, now⟩)]
         | some old => setShape shapes s
            { old with
                properties := pnorm (asObj (jsOr (jget p2 "properties") p2)),
                z_index := asInt (jsOr3 (jget p2 "zIndex")
                  (plookup (asObj (jsOr (jget p2 "properties") p2)) "zIndex")
                  (.jnum 0)),
                deleted := false, updated_at := now }) := rfl
    rw [hL, hobj]
    rcases hrow : getShape shapes s with _ | old
    · intro kv hkv
      rcases List.mem_append.mp hkv with hkv | hkv
      · exact hinv kv hkv
      · rw [List.mem_singleton] at hkv
        subst hkv
        exact zfree_pnorm ps hzps
    · intro kv hkv
      rcases mem_setShape _ _ _ _ hkv with hkv | hkv
      · subst hkv
        exact zfree_pnorm ps hzps
      · exact hinv kv hkv
  · -- SHAPE_EDITED
    obtain ⟨ps, hprops, hzps⟩ := wf_edited_destruct sid p2 hwf2
    refine ⟨erase_apply_edited _ _ _ _ _ _ _ _ hprops, ?_⟩
    have hobj : asObj (jsOr (jget p2 "properties") p2) = ps := by
      rw [hprops]
      rfl
    have hL : applyEvent shapes now "SHAPE_EDITED" sid p2 =
        updateShapeO shapes sid (fun row =>
          { row with
              properties := pmerge row.properties
                (asObj (jsOr (jget p2 "properties") p2)),
              updated_at := now }) := rfl
    rw [hL, hobj]
    refine shapesInv_updateShapeO _ _ _ (fun row hz => ?_) hinv
    exact keysOf_pmerge_not_mem _ _ _ hz ((plookup_eq_none_iff _ _).mp hzps)
  · -- SHAPE_MOVED
    obtain ⟨pos, hpos, -, -⟩ := wf_moved_destruct sid p2 hwf2
    refine ⟨erase_apply_moved _ _ _ _ _ _ _ _ hpos, ?_⟩
    have hL : applyEvent shapes now "SHAPE_MOVED" sid p2 =
        updateShapeO shapes sid (fun row =>
          { row with
              properties := psetSorted (psetSorted row.properties "x"
                ((plookup (asObj (jsOr (jget p2 "position") p2)) "x").getD
                  .jnull))
                "y" ((plookup (asObj (jsOr (jget p2 "position") p2)) "y").getD
                  .jnull),
              updated_at := now }) := rfl
    rw [hL]
    exact shapesInv_updateShapeO _ _ _ (fun row hz => zfree_set_xy _ _ _ hz) hinv
  · -- SHAPE_DELETED
    refine ⟨erase_apply_deleted _ _ _ _ _ _ _, ?_⟩
    have hL : applyEvent shapes now "SHAPE_DELETED" sid p2 =
        updateShapeO shapes sid (fun row =>
          { row with deleted := true, updated_at := now }) := rfl
    rw [hL]
    exact shapesInv_updateShapeO _ _ _ (fun row hz => hz) hinv

/-- Conflict resolution preserves the canonical payload shape: the keys
the projector reads are untouched and the rewritten properties stay a
zIndex-free object. -/
theorem wf_resolved (shapes : Shapes) (sid : Option String) (p : JVal)
    (et : String) (hmem : et ∈ STORED_EVENT_TYPES)
    (hwf : wfPayload et sid p = true)
    (hinv : ∀ kv ∈ shapes, "zIndex" ∉ keysOf kv.2.properties) :
    wfPayload et sid (match detectConflict shapes sid p with
      | some c => resolveConflictServer c p
      | none => p) = true := by
  rcases hdet : detectConflict shapes sid p with _ | c
  · simpa using hwf
  · fin_cases hmem
    · rfl
    · rfl
    · rfl
    · rfl
    · rcases wf_dragend_destruct sid p hwf with hp | ⟨ep, hp, hx, hy⟩ <;>
        simp only [wfPayload] <;>
        rw [jget_resolved_ne c p "endPosition" (by decide) (by decide), hp] <;>
        simp [hx, hy]
    · obtain ⟨⟨s, rfl⟩, ⟨ps, hprops, hzps⟩, ⟨t, htype, ht⟩, hz⟩ :=
        wf_created_destruct sid p hwf
      obtain ⟨ps2, hp2, hz2⟩ :=
        resolved_props_zfree shapes _ p c ps hdet hinv hprops hzps
      simp only [wfPayload, Bool.and_eq_true]
      refine ⟨⟨⟨by simp, ?_⟩, ?_⟩, ?_⟩
      · rw [hp2]
        simp [hz2]
      · rw [jget_resolved_ne c p "type" (by decide) (by decide), htype]
        simp [ht]
      · rw [jget_resolved_ne c p "zIndex" (by decide) (by decide)]
        rcases hz with hz | ⟨n, hz⟩ <;> rw [hz] <;> simp
    · obtain ⟨ps, hprops, hzps⟩ := wf_edited_destruct sid p hwf
      obtain ⟨ps2, hp2, hz2⟩ :=
        resolved_props_zfree shapes _ p c ps hdet hinv hprops hzps
      simp only [wfPayload]
      rw [hp2]
      simp [hz2]
    · obtain ⟨pos, hpos, hx, hy⟩ := wf_moved_destruct sid p hwf
      simp only [wfPayload]
      rw [jget_resolved_ne c p "position" (by decide) (by decide), hpos]
      simp [hx, hy]
    · rfl

/-- One committed event preserves the induction invariant of the
refinement: the zIndex-free rows, the erased table being the spec fold
of the log, and the positivity of stored versions. -/
theorem commit_step (st : StoreState) (now : Int) (u et : String)
    (sid : Option String) (p : JVal)
    (hst : shouldStoreEvent et = true)
    (hwf : wfPayload et sid p = true)
    (hinv : ∀ kv ∈ st.shapes, "zIndex" ∉ keysOf kv.2.properties)
    (hfold : eraseShapes st.shapes = st.events.foldl specProjectFixed [])
    (hver : ∀ e ∈ st.events, 0 < e.version) :
    (∀ kv ∈ (commitEvent st now u et sid p).2.shapes,
      "zIndex" ∉ keysOf kv.2.properties) ∧
    eraseShapes (commitEvent st now u et sid p).2.shapes =
      (commitEvent st now u et sid p).2.events.foldl specProjectFixed [] ∧
    (∀ e ∈ (commitEvent st now u et sid p).2.events, 0 < e.version) := by
  have hmem : et ∈ STORED_EVENT_TYPES := by
    rw [shouldStoreEvent] at hst
    exact List.elem_iff.mp hst
  have hwf2 := wf_resolved st.shapes sid p et hmem hwf hinv
  have hC2 : (commitEvent st now u et sid p).2 =
      { events := st.events ++ [⟨st.nextId, sid, u, et,
          (match detectConflict st.shapes sid p with
           | some c => resolveConflictServer c p
           | none => p), maxVersion st + 1⟩],
        shapes := applyEvent st.shapes now et sid
          (match detectConflict st.shapes sid p with
           | some c => resolveConflictServer c p
           | none => p),
        nextId := st.nextId + 1 } := rfl
  obtain ⟨hfoldstep, hinvstep⟩ := apply_fold_inv st.shapes now st.nextId u
    (maxVersion st + 1) et sid
    (match detectConflict st.shapes sid p with
     | some c => resolveConflictServer c p
     | none => p) hmem hwf2 hinv
  rw [hC2]
  refine ⟨hinvstep, ?_, ?_⟩
  · simp only [List.foldl_append, List.foldl_cons, List.foldl_nil]
    rw [← hfold]
    exact hfoldstep
  · intro e he
    rcases List.mem_append.mp he with he | he
    · exact hver e he
    · rw [List.mem_singleton] at he
      subst he
      simp

theorem getShape_eq_none_iff (shapes : Shapes) (s : String) :
    getShape shapes s = none ↔ s ∉ shapes.map Prod.fst := by
  induction shapes with
  | nil => simp [getShape]
  | cons kv rest ih =>
      obtain ⟨k1, r1⟩ := kv
      by_cases hk : k1 = s
      · subst hk
        simp [getShape]
      · simp [getShape, hk, ih, Ne.symm hk]

theorem keys_updateShapeO (shapes : Shapes) (sid : Option String)
    (f : ShapeRow → ShapeRow) :
    (updateShapeO shapes sid f).map Prod.fst = shapes.map Prod.fst := by
  cases sid with
  | none => rfl
  | some s =>
      rw [show updateShapeO shapes (some s) f = updateShape shapes s f from rfl,
        updateShape, List.map_map]
      refine List.map_congr_left (fun kv _ => ?_)
      by_cases hk : kv.1 = s <;> simp [hk]

theorem keys_setShape_of_some (shapes : Shapes) (s : String) (row old : ShapeRow)
    (h : getShape shapes s = some old) :
    (setShape shapes s row).map Prod.fst = shapes.map Prod.fst := by
  induction shapes with
  | nil => simp [getShape] at h
  | cons kv rest ih =>
      obtain ⟨k1, r1⟩ := kv
      by_cases hk : k1 = s
      · subst hk
        simp [setShape]
      · rw [show getShape ((k1, r1) :: rest) s = getShape rest s from by
          simp [getShape, hk]] at h
        simp [setShape, hk, ih h]

theorem keys_nodup_applyEvent (shapes : Shapes) (now : Int) (et : String)
    (sid : Option String) (p : JVal) (hmem : et ∈ STORED_EVENT_TYPES)
    (hnd : (shapes.map Prod.fst).Nodup) :
    ((applyEvent shapes now et sid p).map Prod.fst).Nodup := by
  fin_cases hmem
  · exact hnd
  · exact hnd
  · exact hnd
  · exact hnd
  · have hL : applyEvent shapes now "DRAG_END" sid p =
        (if truthyO (jget p "endPosition") then
          updateShapeO shapes sid (fun row =>
            { row with
                properties := psetSorted (psetSorted row.properties "x"
                  ((plookup (asObj ((jget p "endPosition").getD .jnull))
                    "x").getD .jnull))
                  "y" ((plookup (asObj ((jget p "endPosition").getD .jnull))
                    "y").getD .jnull),
                updated_at := now })
        else shapes) := rfl
    rw [hL]
    by_cases hc : truthyO (jget p "endPosition") = true
    · rw [if_pos hc, keys_updateShapeO]
      exact hnd
    · rw [if_neg hc]
      exact hnd
  · rcases sid with _ | s
    · exact hnd
    · have hL : applyEvent shapes now "SHAPE_CREATED" (some s) p =
          (match getShape shapes s with
           | none => shapes ++ [(s,
              ⟨asStr (jsOr (jget p "type")
                  (jsOr (plookup (asObj (jsOr (jget p "properties") p)) "type")
                    .jnull)),
                pnorm (asObj (jsOr (jget p "properties") p)),
                asInt (jsOr3 (jget p "zIndex")
                  (plookup (asObj (jsOr (jget p "properties") p)) "zIndex")
                  (.jnum 0)),
                false, now⟩)]
           | some old => setShape shapes s
              { old with
                  properties := pnorm (asObj (jsOr (jget p "properties") p)),
                  z_index := asInt (jsOr3 (jget p "zIndex")
                    (plookup (asObj (jsOr (jget p "properties") p)) "zIndex")
                    (.jnum 0)),
                  deleted := false, updated_at := now }) := rfl
      rw [hL]
      rcases hrow : getShape shapes s with _ | old
      · rw [List.map_append]
        rw [List.nodup_append]
        refine ⟨hnd, List.nodup_singleton _, ?_⟩
        intro a ha hb
        simp at hb
        subst hb
        exact (getShape_eq_none_iff shapes a).mp hrow ha
      · rw [keys_setShape_of_some shapes s _ old hrow]
        exact hnd
  · rw [show applyEvent shapes now "SHAPE_EDITED" sid p =
        updateShapeO shapes sid (fun row =>
          { row with
              properties := pmerge row.properties
                (asObj (jsOr (jget p "properties") p)),
              updated_at := now }) from rfl, keys_updateShapeO]
    exact hnd
  · rw [show applyEvent shapes now "SHAPE_MOVED" sid p =
        updateShapeO shapes sid (fun row =>
          { row with
              properties := psetSorted (psetSorted row.properties "x"
                ((plookup (asObj (jsOr (jget p "position") p)) "x").getD
                  .jnull))
                "y" ((plookup (asObj (jsOr (jget p "position") p)) "y").getD
                  .jnull),
              updated_at := now }) from rfl, keys_updateShapeO]
    exact hnd
  · rw [show applyEvent shapes now "SHAPE_DELETED" sid p =
        updateShapeO shapes sid (fun row =>
          { row with deleted := true, updated_at := now }) from rfl,
      keys_updateShapeO]
    exact hnd

theorem nodup_commit (st : StoreState) (now : Int) (u et : String)
    (sid : Option String) (p : JVal) (hst : shouldStoreEvent et = true)
    (hnd : (st.shapes.map Prod.fst).Nodup) :
    ((commitEvent st now u et sid p).2.shapes.map Prod.fst).Nodup := by
  have hmem : et ∈ STORED_EVENT_TYPES := by
    rw [shouldStoreEvent] at hst
    exact List.elem_iff.mp hst
  exact keys_nodup_applyEvent _ _ _ _ _ hmem hnd

theorem inv_batch_foldl (now : Int) (evs : List BatchItem)
    (acc : (List BatchStored × List BatchConflict) × StoreState)
    (hall : evs.all wfItem = true)
    (h1 : ∀ kv ∈ acc.2.shapes, "zIndex" ∉ keysOf kv.2.properties)
    (h2 : eraseShapes acc.2.shapes = acc.2.events.foldl specProjectFixed [])
    (h3 : ∀ e ∈ acc.2.events, 0 < e.version)
    (h4 : (acc.2.shapes.map Prod.fst).Nodup) :
    (∀ kv ∈ (evs.foldl (storeBatchStep now) acc).2.shapes,
      "zIndex" ∉ keysOf kv.2.properties) ∧
    eraseShapes (evs.foldl (storeBatchStep now) acc).2.shapes =
      (evs.foldl (storeBatchStep now) acc).2.events.foldl specProjectFixed [] ∧
    (∀ e ∈ (evs.foldl (storeBatchStep now) acc).2.events, 0 < e.version) ∧
    ((evs.foldl (storeBatchStep now) acc).2.shapes.map Prod.fst).Nodup := by
  induction evs generalizing acc with
  | nil => exact ⟨h1, h2, h3, h4⟩
  | cons e rest ih =>
      rw [List.all_cons, Bool.and_eq_true] at hall
      rw [List.foldl_cons]
      by_cases hst : shouldStoreEvent e.eventType
      · have hcs := commit_step acc.2 now e.userId e.eventType e.shapeId
          e.payload hst hall.1 h1 h2 h3
        have hnd := nodup_commit acc.2 now e.userId e.eventType e.shapeId
          e.payload hst h4
        refine ih _ hall.2 ?_ ?_ ?_ ?_ <;> rw [storeBatchStep_snd, if_pos hst]
        · exact hcs.1
        · exact hcs.2.1
        · exact hcs.2.2
        · exact hnd
      · refine ih _ hall.2 ?_ ?_ ?_ ?_ <;> rw [storeBatchStep_snd, if_neg hst]
        · exact h1
        · exact h2
        · exact h3
        · exact h4

theorem inv_runCall (st : StoreState) (c : Call) (hwfc : wfCall c = true)
    (h1 : ∀ kv ∈ st.shapes, "zIndex" ∉ keysOf kv.2.properties)
    (h2 : eraseShapes st.shapes = st.events.foldl specProjectFixed [])
    (h3 : ∀ e ∈ st.events, 0 < e.version)
    (h4 : (st.shapes.map Prod.fst).Nodup) :
    (∀ kv ∈ (runCall st c).shapes, "zIndex" ∉ keysOf kv.2.properties) ∧
    eraseShapes (runCall st c).shapes =
      (runCall st c).events.foldl specProjectFixed [] ∧
    (∀ e ∈ (runCall st c).events, 0 < e.version) ∧
    ((runCall st c).shapes.map Prod.fst).Nodup := by
  cases c with
  | store now u et sid p =>
      rw [show runCall st (.store now u et sid p) =
        (storeEvent st now u et sid p).2 from rfl, storeEvent_snd]
      by_cases hst : shouldStoreEvent et
      · rw [if_pos hst]
        have hcs := commit_step st now u et sid p hst hwfc h1 h2 h3
        exact ⟨hcs.1, hcs.2.1, hcs.2.2,
          nodup_commit st now u et sid p hst h4⟩
      · rw [if_neg hst]
        exact ⟨h1, h2, h3, h4⟩
  | batch now evs =>
      rw [show runCall st (.batch now evs) =
        (storeBatchEvents st now evs).2 from rfl, storeBatchEvents]
      exact inv_batch_foldl now evs (([], []), st) hwfc h1 h2 h3 h4

/-- The refinement invariant over a whole trace from a fresh canvas. -/
theorem inv_runTrace (tr : List Call) (hwf : wfTrace tr = true) :
    (∀ kv ∈ (runTrace initialStore tr).shapes,
      "zIndex" ∉ keysOf kv.2.properties) ∧
    eraseShapes (runTrace initialStore tr).shapes =
      (runTrace initialStore tr).events.foldl specProjectFixed [] ∧
    (∀ e ∈ (runTrace initialStore tr).events, 0 < e.version) ∧
    ((runTrace initialStore tr).shapes.map Prod.fst).Nodup := by
  suffices hgen : ∀ st,
      (∀ kv ∈ st.shapes, "zIndex" ∉ keysOf kv.2.properties) →
      eraseShapes st.shapes = st.events.foldl specProjectFixed [] →
      (∀ e ∈ st.events, 0 < e.version) →
      (st.shapes.map Prod.fst).Nodup →
      (∀ kv ∈ (runTrace st tr).shapes, "zIndex" ∉ keysOf kv.2.properties) ∧
      eraseShapes (runTrace st tr).shapes =
        (runTrace st tr).events.foldl specProjectFixed [] ∧
      (∀ e ∈ (runTrace st tr).events, 0 < e.version) ∧
      ((runTrace st tr).shapes.map Prod.fst).Nodup by
    exact hgen initialStore (by simp [initialStore]) rfl (by simp [initialStore])
      (by simp [initialStore])
  induction tr with
  | nil => intro st h1 h2 h3 h4; exact ⟨h1, h2, h3, h4⟩
  | cons c rest ih =>
      rw [wfTrace, List.all_cons, Bool.and_eq_true] at hwf
      intro st h1 h2 h3 h4
      rw [show runTrace st (c :: rest) = runTrace (runCall st c) rest from rfl]
      obtain ⟨g1, g2, g3, g4⟩ := inv_runCall st c hwf.1 h1 h2 h3 h4
      exact ih hwf.2 (runCall st c) g1 g2 g3 g4

theorem insertByZ_erase (x : String × ShapeRow) (l : List (String × ShapeRow)) :
    insertByZ SpecRow.z_index (x.1, specOfRow x.2)
        (l.map (fun kv => (kv.1, specOfRow kv.2))) =
      (insertByZ ShapeRow.z_index x l).map (fun kv => (kv.1, specOfRow kv.2)) := by
  induction l with
  | nil => rfl
  | cons y ys ih =>
      rw [List.map_cons]
      have hL : insertByZ SpecRow.z_index (x.1, specOfRow x.2)
          ((y.1, specOfRow y.2) :: ys.map (fun kv => (kv.1, specOfRow kv.2))) =
          if (specOfRow y.2).z_index ≤ (specOfRow x.2).z_index then
            (y.1, specOfRow y.2) :: insertByZ SpecRow.z_index
              (x.1, specOfRow x.2) (ys.map (fun kv => (kv.1, specOfRow kv.2)))
          else (x.1, specOfRow x.2) :: (y.1, specOfRow y.2) ::
            ys.map (fun kv => (kv.1, specOfRow kv.2)) := rfl
      have hR : insertByZ ShapeRow.z_index x (y :: ys) =
          if y.2.z_index ≤ x.2.z_index then
            y :: insertByZ ShapeRow.z_index x ys
          else x :: y :: ys := rfl
      rw [hL, hR]
      by_cases hz : y.2.z_index ≤ x.2.z_index
      · rw [if_pos hz, if_pos (show (specOfRow y.2).z_index ≤
          (specOfRow x.2).z_index from hz), List.map_cons]
        exact congrArg (List.cons _) ih
      · rw [if_neg hz, if_neg (show ¬ (specOfRow y.2).z_index ≤
          (specOfRow x.2).z_index from hz)]
        rfl

theorem sortByZ_erase (l : Shapes) :
    sortByZ SpecRow.z_index (eraseShapes l) =
      eraseShapes (sortByZ ShapeRow.z_index l) := by
  induction l with
  | nil => rfl
  | cons x xs ih =>
      rw [show eraseShapes (x :: xs) =
        (x.1, specOfRow x.2) :: eraseShapes xs from rfl]
      rw [show sortByZ SpecRow.z_index ((x.1, specOfRow x.2) :: eraseShapes xs) =
        insertByZ SpecRow.z_index (x.1, specOfRow x.2)
          (sortByZ SpecRow.z_index (eraseShapes xs)) from rfl]
      rw [ih, show sortByZ ShapeRow.z_index (x :: xs) =
        insertByZ ShapeRow.z_index x (sortByZ ShapeRow.z_index xs) from rfl]
      exact insertByZ_erase x (sortByZ ShapeRow.z_index xs)

theorem filter_erase (l : Shapes) :
    (eraseShapes l).filter (fun kv => !kv.2.deleted) =
      eraseShapes (l.filter (fun kv => !kv.2.deleted)) := by
  rw [eraseShapes, List.filter_map]
  rfl

theorem present_erase (l : Shapes) :
    (eraseShapes l).map (fun kv =>
        presentShapeObj kv.1 kv.2.typ kv.2.properties kv.2.z_index) =
      l.map (fun kv =>
        presentShapeObj kv.1 kv.2.typ kv.2.properties kv.2.z_index) := by
  rw [eraseShapes, List.map_map]
  rfl

theorem getShape_of_mem_nodup (shapes : Shapes) (s : String) (r : ShapeRow)
    (hnd : (shapes.map Prod.fst).Nodup) (hmem : (s, r) ∈ shapes) :
    getShape shapes s = some r := by
  induction shapes with
  | nil => cases hmem
  | cons kv rest ih =>
      obtain ⟨k1, r1⟩ := kv
      rw [List.map_cons, List.nodup_cons] at hnd
      rcases List.mem_cons.mp hmem with heq | hmem2
      · injection heq with h1 h2
        subst h1
        subst h2
        simp [getShape]
      · have hs : s ≠ k1 := by
          intro hh
          subst hh
          exact hnd.1 (List.mem_map.mpr ⟨(s, r), hmem2, rfl⟩)
        rw [show getShape ((k1, r1) :: rest) s =
          (if k1 = s then some r1 else getShape rest s) from rfl,
          if_neg (fun hh => hs hh.symm)]
        exact ih hnd.2 hmem2

/-- C1 (amended): over every trace of storeEvent/storeBatchEvents calls
with canonical section 4.A payloads on a fresh canvas, getCanvasState
equals the left-fold of the section 4.D.1 projection rules — amended in
one point: SHAPE_CREATED on an already-existing row keeps the row's
original type — over eventsSince(0); eventsSince(0) returns every stored
event (so after a SHAPE_DELETED the delete event is still returned),
and a tombstoned shape is omitted from the live rows the state is built
from. -/
theorem claim_C1_projection_fold (tr : List Call) (hwf : wfTrace tr = true) :
    getCanvasState (runTrace initialStore tr) =
      specCanvasState specProjectFixed
        (eventsSince (runTrace initialStore tr) 0) ∧
    eventsSince (runTrace initialStore tr) 0 =
      (runTrace initialStore tr).events ∧
    (∀ sid row, getShape (runTrace initialStore tr).shapes sid = some row →
      row.deleted = true →
      sid ∉ ((runTrace initialStore tr).shapes.filter
        (fun kv => !kv.2.deleted)).map Prod.fst) := by
  obtain ⟨h1, h2, h3, h4⟩ := inv_runTrace tr hwf
  have hsince : eventsSince (runTrace initialStore tr) 0 =
      (runTrace initialStore tr).events := by
    rw [eventsSince]
    rw [List.filter_eq_self]
    intro e he
    simpa using h3 e he
  refine ⟨?_, hsince, ?_⟩
  · rw [hsince]
    have hget : getCanvasState (runTrace initialStore tr) =
        { shapes := (sortByZ ShapeRow.z_index
            ((runTrace initialStore tr).shapes.filter
              (fun kv => !kv.2.deleted))).map
            (fun kv => presentShapeObj kv.1 kv.2.typ kv.2.properties
              kv.2.z_index),
          version := maxVersion (runTrace initialStore tr) } := rfl
    have hspec : specCanvasState specProjectFixed
        (runTrace initialStore tr).events =
        { shapes := (sortByZ SpecRow.z_index
            (((runTrace initialStore tr).events.foldl specProjectFixed
              []).filter (fun kv => !kv.2.deleted))).map
            (fun kv => presentShapeObj kv.1 kv.2.typ kv.2.properties
              kv.2.z_index),
          version := (runTrace initialStore tr).events.foldl
            (fun m e => max m e.version) 0 } := rfl
    rw [hget, hspec, CanvasState.mk.injEq]
    constructor
    · rw [← h2, filter_erase, sortByZ_erase, present_erase]
    · rfl
  · intro sid row hrow hdel hmem
    obtain ⟨kv, hkvmem, hkveq⟩ := List.mem_map.mp hmem
    rw [List.mem_filter] at hkvmem
    have hg : getShape (runTrace initialStore tr).shapes kv.1 = some kv.2 :=
      getShape_of_mem_nodup _ _ _ h4 (by
        rw [show (kv.1, kv.2) = kv from rfl]
        exact hkvmem.1)
    rw [hkveq, hrow] at hg
    obtain rfl := Option.some.inj hg
    rw [hdel] at hkvmem
    simpa using hkvmem.2

/-- Witness for C1 at the create-then-delete scenario of spec section 8:
getCanvasState omits the deleted shape and equals the spec fold of the
full log. -/
theorem claim_C1_projection_fold_witness :
    getCanvasState (runTrace initialStore
      [Call.store 1000 "u" "SHAPE_CREATED" (some "S1")
        (.jobj [("type", .jstr "rectangle"),
                ("properties", .jobj [("x", .jnum 10), ("y", .jnum 20)]),
                ("zIndex", .jnum 0)]),
       Call.store 2000 "u" "SHAPE_DELETED" (some "S1") (.jobj [])]) =
      specCanvasState specProjectFixed
        (eventsSince (runTrace initialStore
          [Call.store 1000 "u" "SHAPE_CREATED" (some "S1")
            (.jobj [("type", .jstr "rectangle"),
                    ("properties", .jobj [("x", .jnum 10), ("y", .jnum 20)]),
                    ("zIndex", .jnum 0)]),
           Call.store 2000 "u" "SHAPE_DELETED" (some "S1") (.jobj [])]) 0) :=
  (claim_C1_projection_fold
    [Call.store 1000 "u" "SHAPE_CREATED" (some "S1")
      (.jobj [("type", .jstr "rectangle"),
              ("properties", .jobj [("x", .jnum 10), ("y", .jnum 20)]),
              ("zIndex", .jnum 0)]),
     Call.store 2000 "u" "SHAPE_DELETED" (some "S1") (.jobj [])]
    (by decide)).1

/-- C1 counterexample to the claim over the literal section 4.D.1 rules:
re-creating an existing shape with a different type is a well-formed
trace on which getCanvasState (type kept as rectangle by the source
upsert, which does not update type) differs from the fold of the
literal rules (type set to circle). -/
theorem claim_C1_counterexample :
    wfTrace [Call.store 1000 "u" "SHAPE_CREATED" (some "S1")
        (.jobj [("type", .jstr "rectangle"),
                ("properties", .jobj [("x", .jnum 1)]), ("zIndex", .jnum 0)]),
      Call.store 2000 "u" "SHAPE_CREATED" (some "S1")
        (.jobj [("type", .jstr "circle"),
                ("properties", .jobj [("x", .jnum 1)]),
                ("zIndex", .jnum 0)])] = true ∧
    getCanvasState (runTrace initialStore
      [Call.store 1000 "u" "SHAPE_CREATED" (some "S1")
        (.jobj [("type", .jstr "rectangle"),
                ("properties", .jobj [("x", .jnum 1)]), ("zIndex", .jnum 0)]),
       Call.store 2000 "u" "SHAPE_CREATED" (some "S1")
        (.jobj [("type", .jstr "circle"),
                ("properties", .jobj [("x", .jnum 1)]),
                ("zIndex", .jnum 0)])]) ≠
      specCanvasState specProjectOrig
        (eventsSince (runTrace initialStore
          [Call.store 1000 "u" "SHAPE_CREATED" (some "S1")
            (.jobj [("type", .jstr "rectangle"),
                    ("properties", .jobj [("x", .jnum 1)]),
                    ("zIndex", .jnum 0)]),
           Call.store 2000 "u" "SHAPE_CREATED" (some "S1")
            (.jobj [("type", .jstr "circle"),
                    ("properties", .jobj [("x", .jnum 1)]),
                    ("zIndex", .jnum 0)])]) 0) := by
  refine ⟨by decide, ?_⟩
  intro h
  have h2 := congrArg
    (fun cs => (cs.shapes.head?).bind (fun o => jget o "type")) h
  have h3 : (some (JVal.jstr "rectangle") : Option JVal) =
      some (.jstr "circle") := h2
  injection h3 with h4
  injection h4 with h5
  exact absurd h5 (by decide)

end CanvasCollab
